import Mathlib

/-!
Verification development for the warmstart cloth simulator (src/src/main.rs).

The simulation core is shallowly embedded here:
* f32 scalars are idealized as rationals; the one square-root call
  (glam Vec3 length) is abstracted as an explicit function parameter,
  since exact square roots do not exist on the rationals;
* the per-claim theorems about IEEE division-by-zero behaviour use a
  second scalar type that marks non-finite results explicitly;
* vectors (glam Vec3) become a three-component rational structure;
* the mutable particle and constraint arrays become lists updated with
  List.set and read with List.getD (all reachable indices are in
  bounds, mirroring the panics-free index use of the source).
-/

/-- Rational model of glam Vec3 (f32 components idealized as rationals). -/
structure V3 where
  x : ℚ
  y : ℚ
  z : ℚ
deriving DecidableEq

instance : Zero V3 := ⟨⟨0, 0, 0⟩⟩

instance : Add V3 := ⟨fun a b => ⟨a.x + b.x, a.y + b.y, a.z + b.z⟩⟩

instance : Neg V3 := ⟨fun a => ⟨-a.x, -a.y, -a.z⟩⟩

instance : Sub V3 := ⟨fun a b => ⟨a.x - b.x, a.y - b.y, a.z - b.z⟩⟩

/-- Scalar times vector, as in glam `v * s` / `s * v`. -/
def V3.smul (a : ℚ) (v : V3) : V3 := ⟨a * v.x, a * v.y, a * v.z⟩

/-- Vector divided by a scalar, componentwise, as in glam `v / s`. -/
def V3.sdiv (v : V3) (a : ℚ) : V3 := ⟨v.x / a, v.y / a, v.z / a⟩

/-- Dot product of two vectors. -/
def V3.dot (a b : V3) : ℚ := a.x * b.x + a.y * b.y + a.z * b.z

/-- Distance constraint between two particle indices, with rest length and
the accumulated Lagrange multiplier (struct `Constraint` in the source). -/
structure Constraint where
  p0 : ℕ
  p1 : ℕ
  length : ℚ
  lambda : V3
deriving DecidableEq

/-- Default used for out-of-range list reads (never reached on the
in-bounds indices the program uses). -/
def Constraint.default0 : Constraint := ⟨0, 0, 0, 0⟩

/-- Constraint::new: rest length is the distance between the endpoint
positions at build time; glam length is the square root of the dot
product of the difference with itself, with the square root abstracted
as `sq`. -/
def Constraint.new (sq : ℚ → ℚ) (p0 p1 : ℕ) (positions : List V3) : Constraint :=
  ⟨p0, p1,
    sq (V3.dot (positions.getD p0 0 - positions.getD p1 0)
               (positions.getD p0 0 - positions.getD p1 0)), 0⟩

/-- The simulation-relevant fields of struct `Model` (UI/WebGL handles of
the source are presentation-layer state outside the core). -/
structure Model where
  num_particles_x : ℕ
  num_particles_y : ℕ
  num_particles : ℕ
  num_constraints : ℕ
  current_positions : List V3
  previous_positions : List V3
  is_fixed : List Bool
  constraints : List Constraint
  prev_timestamp : ℚ
  target_dt : ℚ
  time_step : ℤ
  num_iterations : ℤ
  do_jacobi : Bool
  do_reset : Bool
  do_clean_lambda : Bool
  stiffness : ℚ
  warm_start : Bool
  eta : ℚ
  nu : ℚ
  jacobi_relaxation : ℚ
deriving DecidableEq

/-- The initial model built by `Component::create`. -/
def initialModel : Model where
  num_particles_x := 10
  num_particles_y := 10
  num_particles := 0
  num_constraints := 0
  current_positions := []
  previous_positions := []
  is_fixed := []
  constraints := []
  prev_timestamp := 0
  target_dt := 1 / 60
  time_step := 0
  num_iterations := 2
  do_jacobi := false
  do_reset := true
  do_clean_lambda := true
  stiffness := 5000
  warm_start := true
  eta := 1
  nu := 3 / 5
  jacobi_relaxation := 3 / 5

/-- Grid positions pushed by the reset double loop: for column i and row j,
xpos = i/nx - 0.5, ypos = j/ny - 0.5, pushing vec3(xpos, -ypos, xpos*0.01). -/
def gridPositions (nx ny : ℕ) : List V3 :=
  (List.range nx).flatMap fun (i : ℕ) =>
    (List.range ny).map fun (j : ℕ) =>
      let xpos : ℚ := (i : ℚ) / (nx : ℚ) - 1 / 2
      let ypos : ℚ := (j : ℚ) / (ny : ℚ) - 1 / 2
      ⟨xpos, -ypos, xpos * (1 / 100)⟩

/-- Fixed flags pushed by the same loop: `j == 0 && (i == 0 || i == nx-1)`. -/
def gridFixed (nx ny : ℕ) : List Bool :=
  (List.range nx).flatMap fun i =>
    (List.range ny).map fun j =>
      j == 0 && (i == 0 || i == nx - 1)

/-- Vertical structural constraints: for each column i, rows j and j+1. -/
def verticalConstraints (sq : ℚ → ℚ) (nx ny : ℕ) (pos : List V3) : List Constraint :=
  (List.range nx).flatMap fun i =>
    (List.range (ny - 1)).map fun j =>
      Constraint.new sq (i * ny + j) (i * ny + j + 1) pos

/-- Horizontal structural constraints: columns i and i+1, same row j. -/
def horizontalConstraints (sq : ℚ → ℚ) (nx ny : ℕ) (pos : List V3) : List Constraint :=
  (List.range (nx - 1)).flatMap fun i =>
    (List.range ny).map fun j =>
      Constraint.new sq (i * ny + j) ((i + 1) * ny + j) pos

/-- Diagonal shear constraints, two per grid cell, in the source order. -/
def diagonalConstraints (sq : ℚ → ℚ) (nx ny : ℕ) (pos : List V3) : List Constraint :=
  (List.range (nx - 1)).flatMap fun i =>
    (List.range (ny - 1)).flatMap fun j =>
      [Constraint.new sq (i * ny + j) ((i + 1) * ny + j + 1) pos,
       Constraint.new sq ((i + 1) * ny + j) (i * ny + j + 1) pos]

/-- Full constraint list built on reset: verticals, then horizontals, then
diagonals, exactly as the three push loops of the source run. -/
def resetConstraints (sq : ℚ → ℚ) (nx ny : ℕ) (pos : List V3) : List Constraint :=
  verticalConstraints sq nx ny pos ++ horizontalConstraints sq nx ny pos ++
    diagonalConstraints sq nx ny pos

/-- The reset branch of Msg::Render: rebuild the grid and topology, zero the
step counter, clear the pending flag and stamp the current timestamp. -/
def applyReset (sq : ℚ → ℚ) (m : Model) (timestamp : ℚ) : Model :=
  let pos := gridPositions m.num_particles_x m.num_particles_y
  let isf := gridFixed m.num_particles_x m.num_particles_y
  let cons := resetConstraints sq m.num_particles_x m.num_particles_y pos
  { m with
    time_step := 0
    do_reset := false
    prev_timestamp := timestamp
    current_positions := pos
    previous_positions := pos
    is_fixed := isf
    constraints := cons
    num_particles := pos.length
    num_constraints := cons.length }

/-- The clean-lambda loop: `constraints[i].lambda = vec3(0,0,0)` for every
index below num_constraints. -/
def cleanLambdaLoop (n : ℕ) (cs : List Constraint) : List Constraint :=
  (List.range n).foldl
    (fun l i => l.set i { l.getD i Constraint.default0 with lambda := 0 }) cs

/-- Gravity vector of the integrator: `vec3(0.0, -9.8, 0.0) * 0.1`. -/
def gravityVec : V3 := V3.smul (1 / 10) ⟨0, -(49 / 5), 0⟩

/-- One body of the integrator loop at particle i: free particles get damped
Verlet velocity plus gravity, previous is set to the old current. The state
is the pair (current_positions, previous_positions). -/
def integStep (nu dt : ℚ) (isf : List Bool) (s : List V3 × List V3) (i : ℕ) :
    List V3 × List V3 :=
  let p := s.1.getD i 0
  let pStart := p
  let pm1 := s.2.getD i 0
  let pNew :=
    if isf.getD i false then p
    else
      let d := V3.smul nu (p - pm1)
      let d2 := d + V3.smul dt gravityVec
      p + d2
  (s.1.set i pNew, s.2.set i pStart)

/-- The integrator pass over all particles (the first per-step loop). -/
def integLoop (nu dt : ℚ) (isf : List Bool) (n : ℕ) (s : List V3 × List V3) :
    List V3 × List V3 :=
  (List.range n).foldl (integStep nu dt isf) s

/-- Solver configuration, read-only during the solve (the Model fields the
solver loop reads, with aTilde precomputed before the loop as in the code). -/
structure SolveCfg where
  is_fixed : List Bool
  do_jacobi : Bool
  warm_start : Bool
  eta : ℚ
  aTilde : ℚ
  jacobi_relaxation : ℚ
  num_particles : ℕ
  num_constraints : ℕ
  sq : ℚ → ℚ

/-- Mutable state of the solver loop: the two position arrays, the
constraints (whose lambdas mutate), and the two Jacobi workspaces. -/
structure SolveCtx where
  cur : List V3
  prev : List V3
  cons : List Constraint
  work : List V3
  work2 : List V3

/-- Add a vector into a list entry, as in `workspace[i] += v`. -/
def listAddAt (l : List V3) (i : ℕ) (v : V3) : List V3 :=
  l.set i (l.getD i 0 + v)

/-- The deltaLambda computed for constraint i at the given iteration: the
XPBD correction -(residual * normal + aTilde * carried lambda) divided by
(total inverse mass + aTilde), plus the warm-start injection
effectiveEta * previous lambda at iteration 0 when warm start is enabled,
with effectiveEta equal to eta in Jacobi mode and 0.7 * eta in Gauss-Seidel
mode. -/
def deltaLambdaOf (cfg : SolveCfg) (iteration : ℕ) (ctx : SolveCtx) (i : ℕ) : V3 :=
  let c := ctx.cons.getD i Constraint.default0
  let p0InvMass : ℚ := if cfg.is_fixed.getD c.p0 false then 0 else 1
  let p1InvMass : ℚ := if cfg.is_fixed.getD c.p1 false then 0 else 1
  let totalInvMass := p0InvMass + p1InvMass
  let p0 := ctx.cur.getD c.p0 0
  let p1 := ctx.cur.getD c.p1 0
  let len := cfg.sq (V3.dot (p0 - p1) (p0 - p1))
  let normal := V3.sdiv (p0 - p1) len
  let residual := len - c.length
  let effectiveEta := if cfg.do_jacobi then cfg.eta else (7 / 10) * cfg.eta
  let dl0 := V3.sdiv
    (-(V3.smul residual normal +
        V3.smul cfg.aTilde (if iteration = 0 then 0 else c.lambda)))
    (totalInvMass + cfg.aTilde)
  if iteration = 0 ∧ cfg.warm_start then dl0 + V3.smul effectiveEta c.lambda
  else dl0

/-- One constraint of one solver iteration (the inner loop body): the XPBD
deltaLambda with compliance, the warm-start injection at iteration 0, the
lambda reset-and-accumulate, and the Gauss-Seidel or Jacobi application of
the position corrections. The velocity-correction accumulation of the
source is commented out there (dead code) and therefore not modeled. -/
def solveConstraint (cfg : SolveCfg) (iteration : ℕ) (ctx : SolveCtx) (i : ℕ) :
    SolveCtx :=
  let c := ctx.cons.getD i Constraint.default0
  let p0InvMass : ℚ := if cfg.is_fixed.getD c.p0 false then 0 else 1
  let p1InvMass : ℚ := if cfg.is_fixed.getD c.p1 false then 0 else 1
  let totalInvMass := p0InvMass + p1InvMass
  let p0RelMass := p0InvMass / totalInvMass
  let p1RelMass := p1InvMass / totalInvMass
  let p0 := ctx.cur.getD c.p0 0
  let p1 := ctx.cur.getD c.p1 0
  let deltaLambda := deltaLambdaOf cfg iteration ctx i
  let newLambda := (if iteration = 0 then 0 else c.lambda) + deltaLambda
  let cons2 := ctx.cons.set i { c with lambda := newLambda }
  let p0Correction := V3.smul p0RelMass deltaLambda
  let p1Correction := -(V3.smul p1RelMass deltaLambda)
  if cfg.do_jacobi then
    { ctx with
      cons := cons2
      work := listAddAt (listAddAt ctx.work c.p0 p0Correction) c.p1 p1Correction }
  else
    { ctx with
      cons := cons2
      cur := (ctx.cur.set c.p0 (p0 + p0Correction)).set c.p1 (p1 + p1Correction) }

/-- One body of the Jacobi drain loop at particle i: apply the relaxed
workspace impulse to the current position, the (never accumulated)
workspace2 impulse to the previous position, and zero both entries. -/
def drainStep (relax : ℚ) (ctx : SolveCtx) (i : ℕ) : SolveCtx :=
  let impulse := ctx.work.getD i 0
  let cur2 := ctx.cur.set i (ctx.cur.getD i 0 + V3.smul relax impulse)
  let work3 := ctx.work.set i 0
  let veloImpulse := ctx.work2.getD i 0
  let prev2 := ctx.prev.set i (ctx.prev.getD i 0 + V3.smul relax veloImpulse)
  let work4 := ctx.work2.set i 0
  ⟨cur2, prev2, ctx.cons, work3, work4⟩

/-- The loop over all constraints of one solver iteration, in build order. -/
def consLoop (cfg : SolveCfg) (iteration : ℕ) (n : ℕ) (ctx : SolveCtx) : SolveCtx :=
  (List.range n).foldl (solveConstraint cfg iteration) ctx

/-- The Jacobi drain loop over all particles. -/
def drainLoop (relax : ℚ) (n : ℕ) (ctx : SolveCtx) : SolveCtx :=
  (List.range n).foldl (drainStep relax) ctx

/-- One solver iteration: process every constraint in build order, then in
Jacobi mode drain the workspaces into the position arrays. -/
def solveIteration (cfg : SolveCfg) (iteration : ℕ) (ctx : SolveCtx) : SolveCtx :=
  let ctx2 := consLoop cfg iteration cfg.num_constraints ctx
  if cfg.do_jacobi then
    drainLoop cfg.jacobi_relaxation cfg.num_particles ctx2
  else ctx2

/-- The loop running solver iterations 0, 1, ..., n-1 in order. -/
def iterLoop (cfg : SolveCfg) (n : ℕ) (ctx : SolveCtx) : SolveCtx :=
  (List.range n).foldl (fun c it => solveIteration cfg it c) ctx

/-- One full simulation step (the body of the delta_time gate): bump the step
counter, stamp the timestamp, run the integrator pass and then
num_iterations solver iterations with zero-initialized workspaces. -/
def simStep (sq : ℚ → ℚ) (m : Model) (timestamp : ℚ) : Model :=
  let ip := integLoop m.nu m.target_dt m.is_fixed m.num_particles
    (m.current_positions, m.previous_positions)
  let aT := 1 / (m.stiffness * m.target_dt * m.target_dt)
  let cfg : SolveCfg :=
    ⟨m.is_fixed, m.do_jacobi, m.warm_start, m.eta, aT, m.jacobi_relaxation,
      m.num_particles, m.num_constraints, sq⟩
  let ctx0 : SolveCtx :=
    ⟨ip.1, ip.2, m.constraints, List.replicate m.num_particles 0,
      List.replicate m.num_particles 0⟩
  let ctxN := iterLoop cfg m.num_iterations.toNat ctx0
  { m with
    time_step := m.time_step + 1
    prev_timestamp := timestamp
    current_positions := ctxN.cur
    previous_positions := ctxN.prev
    constraints := ctxN.cons }

/-- The Msg::Render arm: pending reset, pending lambda clear, then the
fixed-step gate `delta_time >= target_dt` guarding exactly one step.
Timestamps are in milliseconds, hence the division by 1000. -/
def renderTick (sq : ℚ → ℚ) (m : Model) (timestamp : ℚ) : Model :=
  let m1 := if m.do_reset then applyReset sq m timestamp else m
  let m2 :=
    if m1.do_clean_lambda then
      { m1 with
        constraints := cleanLambdaLoop m1.num_constraints m1.constraints
        do_clean_lambda := false }
    else m1
  let delta := (timestamp - m2.prev_timestamp) / 1000
  if m2.target_dt ≤ delta then simStep sq m2 timestamp else m2

/-- Msg::EtaChanged: a successfully parsed float is stored, a parse error
leaves the previous value (the input event carries the parse result). -/
def etaChanged (v : Option ℚ) (m : Model) : Model :=
  match v with
  | Option.some f => { m with eta := f }
  | Option.none => m

/-- Msg::NuChanged, same shape as the eta handler. -/
def nuChanged (v : Option ℚ) (m : Model) : Model :=
  match v with
  | Option.some f => { m with nu := f }
  | Option.none => m

/-- Msg::JacobiRelaxationChanged, same shape as the eta handler. -/
def jacobiRelaxationChanged (v : Option ℚ) (m : Model) : Model :=
  match v with
  | Option.some f => { m with jacobi_relaxation := f }
  | Option.none => m

/-- Msg::NumIterationsChanged calls `e.value.parse().unwrap()`: a parse
failure panics, modeled as Option.none (no resulting state). -/
def numIterationsChanged (v : Option ℤ) (m : Model) : Option Model :=
  v.map fun n => { m with num_iterations := n }

/-- Msg::WarmStartChanged: toggle the flag and force a lambda clear. -/
def warmStartChanged (m : Model) : Model :=
  { m with warm_start := !m.warm_start, do_clean_lambda := true }

/-- Msg::SimTypeClicked: select the mode and force a lambda clear. -/
def simTypeClicked (jac : Bool) (m : Model) : Model :=
  { m with do_jacobi := jac, do_clean_lambda := true }

/-- Msg::ResetClicked: request a reset and a lambda clear. -/
def resetClicked (m : Model) : Model :=
  { m with do_reset := true, do_clean_lambda := true }

/-- Msg::CleanLambdaClicked: request a lambda clear. -/
def cleanLambdaClicked (m : Model) : Model :=
  { m with do_clean_lambda := true }

/-- Grid point (x, y) in row-major order, as the spec words it:
index = x * particles_y + y. -/
def specParticleIndex (ny x y : ℕ) : ℕ := x * ny + y

/-- A distance constraint between particles a and b whose rest length is
the Euclidean distance between their build-time positions (the square root
abstracted as sq) and whose multiplier starts at zero, as the spec words it. -/
def specDistanceConstraint (sq : ℚ → ℚ) (pos : List V3) (a b : ℕ) : Constraint :=
  { p0 := a
    p1 := b
    length := sq (V3.dot (pos.getD a 0 - pos.getD b 0) (pos.getD a 0 - pos.getD b 0))
    lambda := 0 }

/-- The constraint order as the spec describes it: all vertical neighbors
(x,y)-(x,y+1) column by column, then all horizontal neighbors (x,y)-(x+1,y),
then per grid cell the diagonal (x,y)-(x+1,y+1) followed by (x+1,y)-(x,y+1).
This definition follows the wording of the specification and is compared
against the reset construction translated from the source. -/
def specConstraintOrder (sq : ℚ → ℚ) (nx ny : ℕ) (pos : List V3) : List Constraint :=
  ((List.range nx).flatMap fun x =>
    (List.range (ny - 1)).map fun y =>
      specDistanceConstraint sq pos (specParticleIndex ny x y) (specParticleIndex ny x (y + 1)))
  ++ ((List.range (nx - 1)).flatMap fun x =>
    (List.range ny).map fun y =>
      specDistanceConstraint sq pos (specParticleIndex ny x y) (specParticleIndex ny (x + 1) y))
  ++ ((List.range (nx - 1)).flatMap fun x =>
    (List.range (ny - 1)).flatMap fun y =>
      [specDistanceConstraint sq pos (specParticleIndex ny x y) (specParticleIndex ny (x + 1) (y + 1)),
       specDistanceConstraint sq pos (specParticleIndex ny (x + 1) y) (specParticleIndex ny x (y + 1))])

/-!
IEEE-aware scalar model for the degenerate arithmetic claims. An `FQ` value
is a finite rational, or the marker `Option.none` standing for a non-finite
f32 result (NaN or an infinity). Every division with a zero divisor is
non-finite (0/0 is NaN, x/0 is an infinity), and every arithmetic operation
on a non-finite operand is modeled as non-finite, which is exact for the
NaN operands that occur at the inputs evaluated below.
-/

/-- Scalar that tracks non-finite f32 results explicitly. -/
abbrev FQ : Type := Option ℚ

/-- Addition on the non-finite-tracking scalars. -/
def FQ.add : FQ → FQ → FQ
  | Option.some a, Option.some b => Option.some (a + b)
  | _, _ => Option.none

/-- Subtraction on the non-finite-tracking scalars. -/
def FQ.sub : FQ → FQ → FQ
  | Option.some a, Option.some b => Option.some (a - b)
  | _, _ => Option.none

/-- Multiplication on the non-finite-tracking scalars. -/
def FQ.mul : FQ → FQ → FQ
  | Option.some a, Option.some b => Option.some (a * b)
  | _, _ => Option.none

/-- Negation on the non-finite-tracking scalars. -/
def FQ.neg : FQ → FQ
  | Option.some a => Option.some (-a)
  | _ => Option.none

/-- Division: a zero divisor yields a non-finite result, as in IEEE f32. -/
def FQ.div : FQ → FQ → FQ
  | Option.some a, Option.some b =>
      if b = 0 then Option.none else Option.some (a / b)
  | _, _ => Option.none

/-- Vector over the non-finite-tracking scalars. -/
structure V3F where
  x : FQ
  y : FQ
  z : FQ
deriving DecidableEq

/-- The zero vector over the non-finite-tracking scalars. -/
def V3F.zero : V3F := ⟨Option.some 0, Option.some 0, Option.some 0⟩

/-- Componentwise addition. -/
def V3F.add (a b : V3F) : V3F := ⟨FQ.add a.x b.x, FQ.add a.y b.y, FQ.add a.z b.z⟩

/-- Componentwise subtraction. -/
def V3F.sub (a b : V3F) : V3F := ⟨FQ.sub a.x b.x, FQ.sub a.y b.y, FQ.sub a.z b.z⟩

/-- Componentwise negation. -/
def V3F.neg (a : V3F) : V3F := ⟨FQ.neg a.x, FQ.neg a.y, FQ.neg a.z⟩

/-- Scalar times vector. -/
def V3F.smul (a : FQ) (v : V3F) : V3F := ⟨FQ.mul a v.x, FQ.mul a v.y, FQ.mul a v.z⟩

/-- Vector divided by a scalar, componentwise. -/
def V3F.sdiv (v : V3F) (a : FQ) : V3F := ⟨FQ.div v.x a, FQ.div v.y a, FQ.div v.z a⟩

/-- Dot product. -/
def V3F.dot (a b : V3F) : FQ :=
  FQ.add (FQ.add (FQ.mul a.x b.x) (FQ.mul a.y b.y)) (FQ.mul a.z b.z)

/-- Distance constraint over the non-finite-tracking scalars. -/
structure ConstraintF where
  p0 : ℕ
  p1 : ℕ
  length : FQ
  lambda : V3F
deriving DecidableEq

/-- The per-constraint solver body over the non-finite-tracking scalars,
mirroring the same source lines as `solveConstraint` with the Gauss-Seidel
application of the corrections (the Jacobi path routes the identical
corrections through the workspace instead). Returns the updated position
array and the updated constraint. -/
def solveConstraintPointF (sq : FQ → FQ) (isf : List Bool) (do_jacobi warm : Bool)
    (eta aT : FQ) (iteration : ℕ) (cur : List V3F) (c : ConstraintF) :
    List V3F × ConstraintF :=
  let p0InvMass : FQ := if isf.getD c.p0 false then Option.some 0 else Option.some 1
  let p1InvMass : FQ := if isf.getD c.p1 false then Option.some 0 else Option.some 1
  let totalInvMass := FQ.add p0InvMass p1InvMass
  let p0RelMass := FQ.div p0InvMass totalInvMass
  let p1RelMass := FQ.div p1InvMass totalInvMass
  let p0 := cur.getD c.p0 V3F.zero
  let p1 := cur.getD c.p1 V3F.zero
  let len := sq (V3F.dot (V3F.sub p0 p1) (V3F.sub p0 p1))
  let normal := V3F.sdiv (V3F.sub p0 p1) len
  let residual := FQ.sub len c.length
  let effectiveEta := if do_jacobi then eta else FQ.mul (Option.some (7 / 10)) eta
  let dl0 := V3F.sdiv
    (V3F.neg (V3F.add (V3F.smul residual normal)
      (V3F.smul aT (if iteration = 0 then V3F.zero else c.lambda))))
    (FQ.add totalInvMass aT)
  let deltaLambda :=
    if iteration = 0 ∧ warm then V3F.add dl0 (V3F.smul effectiveEta c.lambda)
    else dl0
  let newLambda := V3F.add (if iteration = 0 then V3F.zero else c.lambda) deltaLambda
  let p0Correction := V3F.smul p0RelMass deltaLambda
  let p1Correction := V3F.neg (V3F.smul p1RelMass deltaLambda)
  ((cur.set c.p0 (V3F.add p0 p0Correction)).set c.p1 (V3F.add p1 p1Correction),
    { c with lambda := newLambda })

/-!
Concrete fixtures used to evaluate the embedded code at specific inputs.
The abstract square-root parameter is instantiated with stand-ins that are
exact on the perfect squares arising at those inputs.
-/

/-- Square-root stand-in: exact at 0, 1 and 4, arbitrary elsewhere. -/
def sqTest (q : ℚ) : ℚ := if q = 4 then 2 else if q = 1 then 1 else 0

/-- Two-particle chain, particle 0 fixed at the origin, particle 1 free at
distance 1, one constraint at rest; unit timestep and stiffness so that the
compliance term is 1; one Gauss-Seidel iteration, warm start off. -/
def modelW1 : Model where
  num_particles_x := 2
  num_particles_y := 1
  num_particles := 2
  num_constraints := 1
  current_positions := [⟨0, 0, 0⟩, ⟨1, 0, 0⟩]
  previous_positions := [⟨0, 0, 0⟩, ⟨1, 0, 0⟩]
  is_fixed := [true, false]
  constraints := [⟨0, 1, 1, 0⟩]
  prev_timestamp := 0
  target_dt := 1
  time_step := 0
  num_iterations := 1
  do_jacobi := false
  do_reset := false
  do_clean_lambda := false
  stiffness := 1
  warm_start := false
  eta := 0
  nu := 1
  jacobi_relaxation := 1

/-- Solver configuration for the formula witness: Gauss-Seidel, warm start
on, eta 1, compliance 1, two particles (the first fixed), one constraint. -/
def cfgC1 : SolveCfg := ⟨[true, false], false, true, 1, 1, 1, 2, 1, sqTest⟩

/-- Solver state for the formula witness: endpoints at distance 2, rest
length 1, stored lambda (1,0,0). -/
def ctxC1 : SolveCtx :=
  ⟨[⟨0, 0, 0⟩, ⟨2, 0, 0⟩], [⟨0, 0, 0⟩, ⟨2, 0, 0⟩], [⟨0, 1, 1, ⟨1, 0, 0⟩⟩],
    [0, 0], [0, 0]⟩

/-- Coincident endpoints: both particles at the origin (len = 0), free. -/
def curC2 : List V3F :=
  [⟨Option.some 0, Option.some 0, Option.some 0⟩,
   ⟨Option.some 0, Option.some 0, Option.some 0⟩]

/-- Constraint between the coincident particles, rest length 1. -/
def conC2 : ConstraintF := ⟨0, 1, Option.some 1, V3F.zero⟩

/-- Both endpoints fixed, at distance 1. -/
def curC3 : List V3F :=
  [⟨Option.some 0, Option.some 0, Option.some 0⟩,
   ⟨Option.some 1, Option.some 0, Option.some 0⟩]

/-- Constraint joining the two fixed particles, at rest. -/
def conC3 : ConstraintF := ⟨0, 1, Option.some 1, V3F.zero⟩

/-- Gauss-Seidel configuration with warm start on, eta 1, compliance 1,
relaxation 1, two free particles, one constraint. -/
def cfgC9GS : SolveCfg := ⟨[false, false], false, true, 1, 1, 1, 2, 1, sqTest⟩

/-- The same configuration in Jacobi mode (jacobi_relaxation = 1). -/
def cfgC9J : SolveCfg := ⟨[false, false], true, true, 1, 1, 1, 2, 1, sqTest⟩

/-- One stretched constraint with a nonzero stored lambda: endpoints at
distance 2, rest length 1, lambda (1,0,0). -/
def ctxC9 : SolveCtx :=
  ⟨[⟨2, 0, 0⟩, ⟨0, 0, 0⟩], [⟨2, 0, 0⟩, ⟨0, 0, 0⟩], [⟨0, 1, 1, ⟨1, 0, 0⟩⟩],
    [0, 0], [0, 0]⟩

/-- A model with a pending lambda-clear, one constraint with a nonzero
stored lambda, and no pending reset. -/
def modelC5 : Model :=
  { initialModel with
    do_reset := false
    do_clean_lambda := true
    num_constraints := 1
    constraints := [⟨0, 1, 1, ⟨1, 0, 0⟩⟩] }

/-!
Helper lemmas: componentwise vector algebra and list indexing facts.
-/

theorem V3.ext_xyz {a b : V3} (hx : a.x = b.x) (hy : a.y = b.y) (hz : a.z = b.z) :
    a = b := by
  cases a; cases b; simp_all

@[simp] theorem V3.add_x (a b : V3) : (a + b).x = a.x + b.x := rfl

@[simp] theorem V3.add_y (a b : V3) : (a + b).y = a.y + b.y := rfl

@[simp] theorem V3.add_z (a b : V3) : (a + b).z = a.z + b.z := rfl

@[simp] theorem V3.sub_x (a b : V3) : (a - b).x = a.x - b.x := rfl

@[simp] theorem V3.sub_y (a b : V3) : (a - b).y = a.y - b.y := rfl

@[simp] theorem V3.sub_z (a b : V3) : (a - b).z = a.z - b.z := rfl

@[simp] theorem V3.neg_x (a : V3) : (-a).x = -a.x := rfl

@[simp] theorem V3.neg_y (a : V3) : (-a).y = -a.y := rfl

@[simp] theorem V3.neg_z (a : V3) : (-a).z = -a.z := rfl

@[simp] theorem V3.smul_x (a : ℚ) (v : V3) : (V3.smul a v).x = a * v.x := rfl

@[simp] theorem V3.smul_y (a : ℚ) (v : V3) : (V3.smul a v).y = a * v.y := rfl

@[simp] theorem V3.smul_z (a : ℚ) (v : V3) : (V3.smul a v).z = a * v.z := rfl

@[simp] theorem V3.sdiv_x (v : V3) (a : ℚ) : (V3.sdiv v a).x = v.x / a := rfl

@[simp] theorem V3.sdiv_y (v : V3) (a : ℚ) : (V3.sdiv v a).y = v.y / a := rfl

@[simp] theorem V3.sdiv_z (v : V3) (a : ℚ) : (V3.sdiv v a).z = v.z / a := rfl

@[simp] theorem V3.zero_x : (0 : V3).x = 0 := rfl

@[simp] theorem V3.zero_y : (0 : V3).y = 0 := rfl

@[simp] theorem V3.zero_z : (0 : V3).z = 0 := rfl

@[simp] theorem V3.add_zero (v : V3) : v + 0 = v := by
  apply V3.ext_xyz <;> simp

@[simp] theorem V3.zero_add (v : V3) : 0 + v = v := by
  apply V3.ext_xyz <;> simp

@[simp] theorem V3.smul_zero (a : ℚ) : V3.smul a 0 = 0 := by
  apply V3.ext_xyz <;> simp

@[simp] theorem V3.zero_smul (v : V3) : V3.smul 0 v = 0 := by
  apply V3.ext_xyz <;> simp

theorem V3.add_assoc (a b c : V3) : a + b + c = a + (b + c) := by
  apply V3.ext_xyz <;> simp <;> ring

theorem List.getD_set_self {α : Type} (l : List α) (i : ℕ) (x d : α)
    (h : i < l.length) : (l.set i x).getD i d = x := by
  rw [List.getD_eq_getElem?_getD, List.getElem?_set_self h]
  rfl

theorem List.getD_set_ne {α : Type} (l : List α) (i j : ℕ) (x d : α)
    (h : i ≠ j) : (l.set i x).getD j d = l.getD j d := by
  rw [List.getD_eq_getElem?_getD, List.getElem?_set_ne h, ← List.getD_eq_getElem?_getD]

theorem List.set_getD_self {α : Type} (l : List α) (i : ℕ) (d : α) :
    l.set i (l.getD i d) = l := by
  rcases Nat.lt_or_ge i l.length with h | h
  · apply List.ext_getElem?
    intro n
    rw [List.getElem?_set]
    by_cases he : i = n
    · subst he
      simp [h, List.getD_eq_getElem?_getD, List.getElem?_eq_getElem h]
    · simp [he]
  · exact List.set_eq_of_length_le h

theorem List.getD_replicate_self {α : Type} (n i : ℕ) (a : α) :
    (List.replicate n a).getD i a = a := by
  rw [List.getD_eq_getElem?_getD, List.getElem?_replicate]
  split <;> rfl

theorem List.ext_getD {α : Type} (l₁ l₂ : List α) (d : α)
    (hl : l₁.length = l₂.length)
    (hg : ∀ n, n < l₁.length → l₁.getD n d = l₂.getD n d) : l₁ = l₂ := by
  apply List.ext_getElem?
  intro n
  rcases Nat.lt_or_ge n l₁.length with h | h
  · rw [List.getElem?_eq_getElem h, List.getElem?_eq_getElem (hl ▸ h)]
    have := hg n h
    rw [List.getD_eq_getElem?_getD, List.getD_eq_getElem?_getD,
      List.getElem?_eq_getElem h, List.getElem?_eq_getElem (hl ▸ h)] at this
    simpa using this
  · rw [List.getElem?_eq_none h, List.getElem?_eq_none (hl ▸ h)]

theorem List.getD_map_range {α : Type} (g : ℕ → α) (n j : ℕ) (d : α)
    (h : j < n) : ((List.range n).map g).getD j d = g j := by
  rw [List.getD_eq_getElem?_getD, List.getElem?_map, List.getElem?_range h]
  rfl

theorem List.getD_range (n j : ℕ) (d : ℕ) (h : j < n) :
    (List.range n).getD j d = j := by
  rw [List.getD_eq_getElem?_getD, List.getElem?_range h]
  rfl

theorem flatMap_fixed_width_getD {α : Type} (g : ℕ → List α) (w : ℕ) (d : α)
    (hw : ∀ k, (g k).length = w) :
    ∀ (l : List ℕ) (i j : ℕ), i < l.length → j < w →
      ((l.flatMap g).getD (i * w + j) d) = (g (l.getD i 0)).getD j d := by
  intro l
  induction l with
  | nil => intro i j hi _; simp at hi
  | cons a tl ih =>
    intro i j hi hj
    cases i with
    | zero =>
      rw [List.flatMap_cons, Nat.zero_mul, Nat.zero_add,
        List.getD_append _ _ _ j (by rw [hw a]; exact hj)]
      rfl
    | succ i =>
      rw [List.flatMap_cons,
        List.getD_append_right _ _ _ _ (by rw [hw a]; nlinarith)]
      have harith : (i + 1) * w + j - (g a).length = i * w + j := by
        rw [hw a]; ring_nf; omega
      rw [harith]
      exact ih i j (by simpa using hi) hj

theorem foldl_inv {σ α : Type} (P : σ → Prop) (f : σ → α → σ) :
    ∀ (l : List α) (s : σ), (∀ t a, a ∈ l → P t → P (f t a)) → P s →
      P (l.foldl f s) := by
  intro l
  induction l with
  | nil => intro s _ hs; exact hs
  | cons a tl ih =>
    intro s hstep hs
    exact ih (f s a) (fun t b hb => hstep t b (List.mem_cons_of_mem a hb))
      (hstep s a (List.mem_cons_self a tl) hs)

@[simp] theorem V3.neg_zero : -(0 : V3) = 0 := by
  apply V3.ext_xyz <;> simp

theorem listAddAt_zero (l : List V3) (i : ℕ) : listAddAt l i 0 = l := by
  rw [listAddAt, V3.add_zero, List.set_getD_self]

theorem solveConstraint_prev (cfg : SolveCfg) (it : ℕ) (ctx : SolveCtx) (i : ℕ) :
    (solveConstraint cfg it ctx i).prev = ctx.prev := by
  by_cases h : cfg.do_jacobi <;> simp [solveConstraint, h]

theorem solveConstraint_work2 (cfg : SolveCfg) (it : ℕ) (ctx : SolveCtx) (i : ℕ) :
    (solveConstraint cfg it ctx i).work2 = ctx.work2 := by
  by_cases h : cfg.do_jacobi <;> simp [solveConstraint, h]

theorem solveConstraint_cons (cfg : SolveCfg) (it : ℕ) (ctx : SolveCtx) (i : ℕ) :
    ∃ lam, (solveConstraint cfg it ctx i).cons =
      ctx.cons.set i { ctx.cons.getD i Constraint.default0 with lambda := lam } := by
  by_cases h : cfg.do_jacobi <;> simp [solveConstraint, h] <;> exact ⟨_, rfl⟩

theorem solveConstraint_cur_jacobi (cfg : SolveCfg) (it : ℕ) (ctx : SolveCtx)
    (i : ℕ) (hj : cfg.do_jacobi = true) :
    (solveConstraint cfg it ctx i).cur = ctx.cur := by
  simp [solveConstraint, hj]

theorem solveConstraint_work_gs (cfg : SolveCfg) (it : ℕ) (ctx : SolveCtx)
    (i : ℕ) (hgs : cfg.do_jacobi = false) :
    (solveConstraint cfg it ctx i).work = ctx.work := by
  simp [solveConstraint, hgs]

theorem listAddAt_getD_ne (l : List V3) (i j : ℕ) (v : V3) (h : i ≠ j) :
    (listAddAt l i v).getD j 0 = l.getD j 0 := by
  rw [listAddAt, List.getD_set_ne _ _ _ _ _ h]

theorem solveConstraint_cur_gs_shape (cfg : SolveCfg) (it : ℕ) (ctx : SolveCtx)
    (i : ℕ) (hgs : cfg.do_jacobi = false) :
    ∃ dl : V3,
      (solveConstraint cfg it ctx i).cur =
        (ctx.cur.set (ctx.cons.getD i Constraint.default0).p0
          (ctx.cur.getD (ctx.cons.getD i Constraint.default0).p0 0 +
            V3.smul
              ((if cfg.is_fixed.getD (ctx.cons.getD i Constraint.default0).p0 false then (0:ℚ) else 1) /
               ((if cfg.is_fixed.getD (ctx.cons.getD i Constraint.default0).p0 false then (0:ℚ) else 1) +
                (if cfg.is_fixed.getD (ctx.cons.getD i Constraint.default0).p1 false then (0:ℚ) else 1)))
              dl)).set (ctx.cons.getD i Constraint.default0).p1
          (ctx.cur.getD (ctx.cons.getD i Constraint.default0).p1 0 +
            -(V3.smul
              ((if cfg.is_fixed.getD (ctx.cons.getD i Constraint.default0).p1 false then (0:ℚ) else 1) /
               ((if cfg.is_fixed.getD (ctx.cons.getD i Constraint.default0).p0 false then (0:ℚ) else 1) +
                (if cfg.is_fixed.getD (ctx.cons.getD i Constraint.default0).p1 false then (0:ℚ) else 1)))
              dl)) := by
  simp only [solveConstraint, hgs, Bool.false_eq_true, if_false]
  exact ⟨_, rfl⟩

theorem solveConstraint_cur_fixed (cfg : SolveCfg) (it : ℕ) (ctx : SolveCtx)
    (i : ℕ) (hgs : cfg.do_jacobi = false) (k : ℕ)
    (hk : cfg.is_fixed.getD k false = true)
    (hnb : ¬(cfg.is_fixed.getD (ctx.cons.getD i Constraint.default0).p0 false = true ∧
             cfg.is_fixed.getD (ctx.cons.getD i Constraint.default0).p1 false = true)) :
    (solveConstraint cfg it ctx i).cur.getD k 0 = ctx.cur.getD k 0 := by
  obtain ⟨dl, hshape⟩ := solveConstraint_cur_gs_shape cfg it ctx i hgs
  rw [hshape]
  set c := ctx.cons.getD i Constraint.default0 with hc
  by_cases h0 : c.p0 = k
  · have hf0 : cfg.is_fixed.getD c.p0 false = true := by rw [h0]; exact hk
    have hf1 : cfg.is_fixed.getD c.p1 false = false := by
      cases hb : cfg.is_fixed.getD c.p1 false
      · rfl
      · exact absurd ⟨hf0, hb⟩ hnb
    have hne : c.p1 ≠ k := by
      intro he
      rw [he, hk] at hf1
      exact absurd hf1 (by decide)
    have hn1 : ¬(cfg.is_fixed.getD c.p1 false = true) := by rw [hf1]; decide
    rw [List.getD_set_ne _ _ _ _ _ hne, if_pos hf0, if_neg hn1, zero_div,
      V3.zero_smul, V3.add_zero, List.set_getD_self]
  · by_cases h1 : c.p1 = k
    · have hf1 : cfg.is_fixed.getD c.p1 false = true := by rw [h1]; exact hk
      have hf0 : cfg.is_fixed.getD c.p0 false = false := by
        cases hb : cfg.is_fixed.getD c.p0 false
        · rfl
        · exact absurd ⟨hb, hf1⟩ hnb
      have hn0 : ¬(cfg.is_fixed.getD c.p0 false = true) := by rw [hf0]; decide
      have hpp : c.p0 ≠ c.p1 := fun he => h0 (he.trans h1)
      rw [if_pos hf1, if_neg hn0, zero_div, V3.zero_smul, V3.neg_zero, V3.add_zero]
      have hread := (List.getD_set_ne ctx.cur c.p0 c.p1
        (ctx.cur.getD c.p0 0 + V3.smul (1 / (1 + 0)) dl) 0 hpp).symm
      rw [hread, List.set_getD_self, List.getD_set_ne _ _ _ _ _ h0]
    · rw [List.getD_set_ne _ _ _ _ _ h1, List.getD_set_ne _ _ _ _ _ h0]

theorem solveConstraint_work_jacobi_shape (cfg : SolveCfg) (it : ℕ) (ctx : SolveCtx)
    (i : ℕ) (hj : cfg.do_jacobi = true) :
    ∃ dl : V3,
      (solveConstraint cfg it ctx i).work =
        listAddAt
          (listAddAt ctx.work (ctx.cons.getD i Constraint.default0).p0
            (V3.smul
              ((if cfg.is_fixed.getD (ctx.cons.getD i Constraint.default0).p0 false then (0:ℚ) else 1) /
               ((if cfg.is_fixed.getD (ctx.cons.getD i Constraint.default0).p0 false then (0:ℚ) else 1) +
                (if cfg.is_fixed.getD (ctx.cons.getD i Constraint.default0).p1 false then (0:ℚ) else 1)))
              dl))
          (ctx.cons.getD i Constraint.default0).p1
          (-(V3.smul
              ((if cfg.is_fixed.getD (ctx.cons.getD i Constraint.default0).p1 false then (0:ℚ) else 1) /
               ((if cfg.is_fixed.getD (ctx.cons.getD i Constraint.default0).p0 false then (0:ℚ) else 1) +
                (if cfg.is_fixed.getD (ctx.cons.getD i Constraint.default0).p1 false then (0:ℚ) else 1)))
              dl)) := by
  simp only [solveConstraint, hj, if_true]
  exact ⟨_, rfl⟩

theorem solveConstraint_work_fixed (cfg : SolveCfg) (it : ℕ) (ctx : SolveCtx)
    (i : ℕ) (hj : cfg.do_jacobi = true) (k : ℕ)
    (hk : cfg.is_fixed.getD k false = true)
    (hnb : ¬(cfg.is_fixed.getD (ctx.cons.getD i Constraint.default0).p0 false = true ∧
             cfg.is_fixed.getD (ctx.cons.getD i Constraint.default0).p1 false = true)) :
    (solveConstraint cfg it ctx i).work.getD k 0 = ctx.work.getD k 0 := by
  obtain ⟨dl, hshape⟩ := solveConstraint_work_jacobi_shape cfg it ctx i hj
  rw [hshape]
  set c := ctx.cons.getD i Constraint.default0 with hc
  by_cases h1 : c.p1 = k
  · have hf1 : cfg.is_fixed.getD c.p1 false = true := by rw [h1]; exact hk
    have hf0 : cfg.is_fixed.getD c.p0 false = false := by
      cases hb : cfg.is_fixed.getD c.p0 false
      · rfl
      · exact absurd ⟨hb, hf1⟩ hnb
    have hn0 : ¬(cfg.is_fixed.getD c.p0 false = true) := by rw [hf0]; decide
    have hne : c.p0 ≠ k := by
      intro he
      rw [he, hk] at hf0
      exact absurd hf0 (by decide)
    rw [if_pos hf1, if_neg hn0, zero_div, V3.zero_smul, V3.neg_zero,
      listAddAt_zero, listAddAt_getD_ne _ _ _ _ hne]
  · by_cases h0 : c.p0 = k
    · have hf0 : cfg.is_fixed.getD c.p0 false = true := by rw [h0]; exact hk
      have hf1 : cfg.is_fixed.getD c.p1 false = false := by
        cases hb : cfg.is_fixed.getD c.p1 false
        · rfl
        · exact absurd ⟨hf0, hb⟩ hnb
      have hn1 : ¬(cfg.is_fixed.getD c.p1 false = true) := by rw [hf1]; decide
      rw [listAddAt_getD_ne _ _ _ _ h1, if_pos hf0, if_neg hn1, zero_div,
        V3.zero_smul, listAddAt_zero]
    · rw [listAddAt_getD_ne _ _ _ _ h1, listAddAt_getD_ne _ _ _ _ h0]

theorem solveConstraint_cur_length (cfg : SolveCfg) (it : ℕ) (ctx : SolveCtx)
    (i : ℕ) : (solveConstraint cfg it ctx i).cur.length = ctx.cur.length := by
  by_cases h : cfg.do_jacobi
  · rw [solveConstraint_cur_jacobi cfg it ctx i h]
  · obtain ⟨dl, hshape⟩ := solveConstraint_cur_gs_shape cfg it ctx i
      (by cases hb : cfg.do_jacobi; rfl; exact absurd hb h)
    rw [hshape, List.length_set, List.length_set]

theorem solveConstraint_cons_length (cfg : SolveCfg) (it : ℕ) (ctx : SolveCtx)
    (i : ℕ) : (solveConstraint cfg it ctx i).cons.length = ctx.cons.length := by
  obtain ⟨lam, h⟩ := solveConstraint_cons cfg it ctx i
  rw [h, List.length_set]

theorem solveConstraint_cons_pp (cfg : SolveCfg) (it : ℕ) (ctx : SolveCtx)
    (i j : ℕ) :
    ((solveConstraint cfg it ctx i).cons.getD j Constraint.default0).p0 =
      (ctx.cons.getD j Constraint.default0).p0 ∧
    ((solveConstraint cfg it ctx i).cons.getD j Constraint.default0).p1 =
      (ctx.cons.getD j Constraint.default0).p1 := by
  obtain ⟨lam, h⟩ := solveConstraint_cons cfg it ctx i
  rw [h]
  by_cases hij : i = j
  · subst hij
    by_cases hlen : i < ctx.cons.length
    · rw [List.getD_set_self _ _ _ _ hlen]
      exact ⟨rfl, rfl⟩
    · rw [List.set_eq_of_length_le (Nat.le_of_not_lt hlen)]
      exact ⟨rfl, rfl⟩
  · rw [List.getD_set_ne _ _ _ _ _ hij]
    exact ⟨rfl, rfl⟩

theorem set_zero_getD_zero (l : List V3) (i k : ℕ) (h : l.getD k 0 = 0) :
    (l.set i (0:V3)).getD k 0 = 0 := by
  by_cases hik : i = k
  · subst hik
    by_cases hlen : i < l.length
    · rw [List.getD_set_self _ _ _ _ hlen]
    · rw [List.set_eq_of_length_le (Nat.le_of_not_lt hlen)]
      exact h
  · rw [List.getD_set_ne _ _ _ _ _ hik]
    exact h

theorem drainStep_cons (relax : ℚ) (ctx : SolveCtx) (i : ℕ) :
    (drainStep relax ctx i).cons = ctx.cons := rfl

theorem drainStep_prev_zero (relax : ℚ) (ctx : SolveCtx) (i : ℕ)
    (hw2 : ∀ k, ctx.work2.getD k 0 = 0) :
    (drainStep relax ctx i).prev = ctx.prev := by
  show ctx.prev.set i (ctx.prev.getD i 0 + V3.smul relax (ctx.work2.getD i 0)) = ctx.prev
  rw [hw2 i, V3.smul_zero, V3.add_zero, List.set_getD_self]

theorem drainStep_work2_zero (relax : ℚ) (ctx : SolveCtx) (i : ℕ)
    (hw2 : ∀ k, ctx.work2.getD k 0 = 0) :
    ∀ k, (drainStep relax ctx i).work2.getD k 0 = 0 := by
  intro k
  exact set_zero_getD_zero ctx.work2 i k (hw2 k)

theorem drainStep_work_zero (relax : ℚ) (ctx : SolveCtx) (i k : ℕ)
    (hw : ctx.work.getD k 0 = 0) :
    (drainStep relax ctx i).work.getD k 0 = 0 :=
  set_zero_getD_zero ctx.work i k hw

theorem drainStep_cur_of_work_zero (relax : ℚ) (ctx : SolveCtx) (i k : ℕ)
    (hw : ctx.work.getD k 0 = 0) :
    (drainStep relax ctx i).cur.getD k 0 = ctx.cur.getD k 0 := by
  show (ctx.cur.set i (ctx.cur.getD i 0 + V3.smul relax (ctx.work.getD i 0))).getD k 0 =
    ctx.cur.getD k 0
  by_cases hik : i = k
  · subst hik
    rw [hw, V3.smul_zero, V3.add_zero, List.set_getD_self]
  · rw [List.getD_set_ne _ _ _ _ _ hik]

theorem consLoop_preserves (cfg : SolveCfg) (it : ℕ) (n : ℕ) (ctx : SolveCtx)
    (hn : n ≤ ctx.cons.length)
    (hsafe : ∀ j, j < ctx.cons.length →
      ¬(cfg.is_fixed.getD (ctx.cons.getD j Constraint.default0).p0 false = true ∧
        cfg.is_fixed.getD (ctx.cons.getD j Constraint.default0).p1 false = true)) :
    (consLoop cfg it n ctx).cons.length = ctx.cons.length ∧
    (∀ j, j < ctx.cons.length →
      ((consLoop cfg it n ctx).cons.getD j Constraint.default0).p0 =
        (ctx.cons.getD j Constraint.default0).p0 ∧
      ((consLoop cfg it n ctx).cons.getD j Constraint.default0).p1 =
        (ctx.cons.getD j Constraint.default0).p1) ∧
    (∀ k, cfg.is_fixed.getD k false = true →
      (consLoop cfg it n ctx).cur.getD k 0 = ctx.cur.getD k 0) ∧
    (∀ k, cfg.is_fixed.getD k false = true →
      (consLoop cfg it n ctx).work.getD k 0 = ctx.work.getD k 0) ∧
    (consLoop cfg it n ctx).prev = ctx.prev ∧
    (consLoop cfg it n ctx).work2 = ctx.work2 ∧
    (consLoop cfg it n ctx).cur.length = ctx.cur.length := by
  unfold consLoop
  refine foldl_inv
    (fun t =>
      t.cons.length = ctx.cons.length ∧
      (∀ j, j < ctx.cons.length →
        (t.cons.getD j Constraint.default0).p0 = (ctx.cons.getD j Constraint.default0).p0 ∧
        (t.cons.getD j Constraint.default0).p1 = (ctx.cons.getD j Constraint.default0).p1) ∧
      (∀ k, cfg.is_fixed.getD k false = true → t.cur.getD k 0 = ctx.cur.getD k 0) ∧
      (∀ k, cfg.is_fixed.getD k false = true → t.work.getD k 0 = ctx.work.getD k 0) ∧
      t.prev = ctx.prev ∧ t.work2 = ctx.work2 ∧ t.cur.length = ctx.cur.length)
    (solveConstraint cfg it) (List.range n) ctx ?_ ?_
  · intro t a ha hP
    obtain ⟨hL, hPP, hCur, hWork, hPrev, hW2, hCL⟩ := hP
    have haL : a < ctx.cons.length := lt_of_lt_of_le (List.mem_range.mp ha) hn
    have hnb : ¬(cfg.is_fixed.getD (t.cons.getD a Constraint.default0).p0 false = true ∧
        cfg.is_fixed.getD (t.cons.getD a Constraint.default0).p1 false = true) := by
      obtain ⟨e0, e1⟩ := hPP a haL
      rw [e0, e1]
      exact hsafe a haL
    refine ⟨?_, ?_, ?_, ?_, ?_, ?_, ?_⟩
    · rw [solveConstraint_cons_length]; exact hL
    · intro j hj
      obtain ⟨e0, e1⟩ := solveConstraint_cons_pp cfg it t a j
      rw [e0, e1]
      exact hPP j hj
    · intro k hk
      by_cases hj : cfg.do_jacobi
      · rw [solveConstraint_cur_jacobi cfg it t a hj]
        exact hCur k hk
      · have hgs : cfg.do_jacobi = false := by
          cases hb : cfg.do_jacobi
          · rfl
          · exact absurd hb hj
        rw [solveConstraint_cur_fixed cfg it t a hgs k hk hnb]
        exact hCur k hk
    · intro k hk
      by_cases hj : cfg.do_jacobi
      · rw [solveConstraint_work_fixed cfg it t a hj k hk hnb]
        exact hWork k hk
      · have hgs : cfg.do_jacobi = false := by
          cases hb : cfg.do_jacobi
          · rfl
          · exact absurd hb hj
        rw [solveConstraint_work_gs cfg it t a hgs]
        exact hWork k hk
    · rw [solveConstraint_prev]; exact hPrev
    · rw [solveConstraint_work2]; exact hW2
    · rw [solveConstraint_cur_length]; exact hCL
  · exact ⟨rfl, fun j _ => ⟨rfl, rfl⟩, fun k _ => rfl, fun k _ => rfl, rfl, rfl, rfl⟩

theorem drainLoop_preserves (relax : ℚ) (n : ℕ) (ctx : SolveCtx)
    (hw2 : ∀ k, ctx.work2.getD k 0 = 0) :
    (drainLoop relax n ctx).cons = ctx.cons ∧
    (drainLoop relax n ctx).prev = ctx.prev ∧
    (∀ k, (drainLoop relax n ctx).work2.getD k 0 = 0) ∧
    (∀ k, ctx.work.getD k 0 = 0 →
      (drainLoop relax n ctx).work.getD k 0 = 0 ∧
      (drainLoop relax n ctx).cur.getD k 0 = ctx.cur.getD k 0) := by
  unfold drainLoop
  refine foldl_inv
    (fun t =>
      t.cons = ctx.cons ∧ t.prev = ctx.prev ∧ (∀ k, t.work2.getD k 0 = 0) ∧
      (∀ k, ctx.work.getD k 0 = 0 →
        t.work.getD k 0 = 0 ∧ t.cur.getD k 0 = ctx.cur.getD k 0))
    (drainStep relax) (List.range n) ctx ?_ ?_
  · intro t a _ hP
    obtain ⟨hCons, hPrev, hW2, hWC⟩ := hP
    refine ⟨?_, ?_, ?_, ?_⟩
    · rw [drainStep_cons]; exact hCons
    · rw [drainStep_prev_zero relax t a hW2]; exact hPrev
    · exact drainStep_work2_zero relax t a hW2
    · intro k hk
      obtain ⟨hwk, hck⟩ := hWC k hk
      exact ⟨drainStep_work_zero relax t a k hwk,
        (drainStep_cur_of_work_zero relax t a k hwk).trans hck⟩
  · exact ⟨rfl, rfl, hw2, fun k hk => ⟨hk, rfl⟩⟩

theorem consLoop_prev_work2 (cfg : SolveCfg) (it : ℕ) (n : ℕ) (ctx : SolveCtx) :
    (consLoop cfg it n ctx).prev = ctx.prev ∧
    (consLoop cfg it n ctx).work2 = ctx.work2 := by
  unfold consLoop
  refine foldl_inv (fun t => t.prev = ctx.prev ∧ t.work2 = ctx.work2)
    (solveConstraint cfg it) (List.range n) ctx ?_ ⟨rfl, rfl⟩
  intro t a _ hP
  exact ⟨(solveConstraint_prev cfg it t a).trans hP.1,
    (solveConstraint_work2 cfg it t a).trans hP.2⟩

theorem solveIteration_prev_work2 (cfg : SolveCfg) (it : ℕ) (ctx : SolveCtx)
    (hw2 : ∀ k, ctx.work2.getD k 0 = 0) :
    (solveIteration cfg it ctx).prev = ctx.prev ∧
    (∀ k, (solveIteration cfg it ctx).work2.getD k 0 = 0) := by
  unfold solveIteration
  obtain ⟨hp, hw⟩ := consLoop_prev_work2 cfg it cfg.num_constraints ctx
  have hw2c : ∀ k, (consLoop cfg it cfg.num_constraints ctx).work2.getD k 0 = 0 := by
    intro k
    rw [hw]
    exact hw2 k
  by_cases hj : cfg.do_jacobi
  · simp only [hj, if_true]
    obtain ⟨_, hdp, hdw2, _⟩ := drainLoop_preserves cfg.jacobi_relaxation
      cfg.num_particles (consLoop cfg it cfg.num_constraints ctx) hw2c
    exact ⟨hdp.trans hp, hdw2⟩
  · simp only [hj, Bool.false_eq_true, if_false]
    exact ⟨hp, hw2c⟩

theorem iterLoop_prev (cfg : SolveCfg) (n : ℕ) (ctx : SolveCtx)
    (hw2 : ∀ k, ctx.work2.getD k 0 = 0) :
    (iterLoop cfg n ctx).prev = ctx.prev := by
  unfold iterLoop
  have := foldl_inv
    (fun t => t.prev = ctx.prev ∧ (∀ k, t.work2.getD k 0 = 0))
    (fun c it => solveIteration cfg it c) (List.range n) ctx ?_ ⟨rfl, hw2⟩
  · exact this.1
  · intro t a _ hP
    obtain ⟨hsp, hsw⟩ := solveIteration_prev_work2 cfg a t hP.2
    exact ⟨hsp.trans hP.1, hsw⟩

theorem solveIteration_fixed (cfg : SolveCfg) (it : ℕ) (ctx : SolveCtx)
    (hn : cfg.num_constraints ≤ ctx.cons.length)
    (hsafe : ∀ j, j < ctx.cons.length →
      ¬(cfg.is_fixed.getD (ctx.cons.getD j Constraint.default0).p0 false = true ∧
        cfg.is_fixed.getD (ctx.cons.getD j Constraint.default0).p1 false = true))
    (hw2 : ∀ k, ctx.work2.getD k 0 = 0)
    (hwfix : ∀ k, cfg.is_fixed.getD k false = true → ctx.work.getD k 0 = 0) :
    (solveIteration cfg it ctx).cons.length = ctx.cons.length ∧
    (∀ j, j < ctx.cons.length →
      ((solveIteration cfg it ctx).cons.getD j Constraint.default0).p0 =
        (ctx.cons.getD j Constraint.default0).p0 ∧
      ((solveIteration cfg it ctx).cons.getD j Constraint.default0).p1 =
        (ctx.cons.getD j Constraint.default0).p1) ∧
    (∀ k, cfg.is_fixed.getD k false = true →
      (solveIteration cfg it ctx).cur.getD k 0 = ctx.cur.getD k 0) ∧
    (∀ k, cfg.is_fixed.getD k false = true →
      (solveIteration cfg it ctx).work.getD k 0 = 0) ∧
    (solveIteration cfg it ctx).prev = ctx.prev ∧
    (∀ k, (solveIteration cfg it ctx).work2.getD k 0 = 0) := by
  unfold solveIteration
  obtain ⟨hL, hPP, hCur, hWork, hPrev, hW2, _⟩ :=
    consLoop_preserves cfg it cfg.num_constraints ctx hn hsafe
  have hw2c : ∀ k, (consLoop cfg it cfg.num_constraints ctx).work2.getD k 0 = 0 := by
    intro k
    rw [hW2]
    exact hw2 k
  by_cases hj : cfg.do_jacobi
  · simp only [hj, if_true]
    obtain ⟨hdc, hdp, hdw2, hdwc⟩ := drainLoop_preserves cfg.jacobi_relaxation
      cfg.num_particles (consLoop cfg it cfg.num_constraints ctx) hw2c
    refine ⟨?_, ?_, ?_, ?_, ?_, hdw2⟩
    · rw [hdc]; exact hL
    · intro j hj2
      rw [hdc]
      exact hPP j hj2
    · intro k hk
      have hwk : (consLoop cfg it cfg.num_constraints ctx).work.getD k 0 = 0 :=
        (hWork k hk).trans (hwfix k hk)
      exact ((hdwc k hwk).2).trans (hCur k hk)
    · intro k hk
      have hwk : (consLoop cfg it cfg.num_constraints ctx).work.getD k 0 = 0 :=
        (hWork k hk).trans (hwfix k hk)
      exact (hdwc k hwk).1
    · rw [hdp]; exact hPrev
  · simp only [hj, Bool.false_eq_true, if_false]
    refine ⟨hL, hPP, hCur, ?_, hPrev, hw2c⟩
    intro k hk
    exact (hWork k hk).trans (hwfix k hk)

theorem iterLoop_fixed (cfg : SolveCfg) (n : ℕ) (ctx : SolveCtx)
    (hn : cfg.num_constraints ≤ ctx.cons.length)
    (hsafe : ∀ j, j < ctx.cons.length →
      ¬(cfg.is_fixed.getD (ctx.cons.getD j Constraint.default0).p0 false = true ∧
        cfg.is_fixed.getD (ctx.cons.getD j Constraint.default0).p1 false = true))
    (hw2 : ∀ k, ctx.work2.getD k 0 = 0)
    (hwfix : ∀ k, cfg.is_fixed.getD k false = true → ctx.work.getD k 0 = 0) :
    (∀ k, cfg.is_fixed.getD k false = true →
      (iterLoop cfg n ctx).cur.getD k 0 = ctx.cur.getD k 0) ∧
    (iterLoop cfg n ctx).prev = ctx.prev := by
  unfold iterLoop
  have := foldl_inv
    (fun t =>
      t.cons.length = ctx.cons.length ∧
      (∀ j, j < ctx.cons.length →
        (t.cons.getD j Constraint.default0).p0 = (ctx.cons.getD j Constraint.default0).p0 ∧
        (t.cons.getD j Constraint.default0).p1 = (ctx.cons.getD j Constraint.default0).p1) ∧
      (∀ k, cfg.is_fixed.getD k false = true → t.cur.getD k 0 = ctx.cur.getD k 0) ∧
      (∀ k, cfg.is_fixed.getD k false = true → t.work.getD k 0 = 0) ∧
      t.prev = ctx.prev ∧ (∀ k, t.work2.getD k 0 = 0))
    (fun c it => solveIteration cfg it c) (List.range n) ctx ?_
    ⟨rfl, fun j _ => ⟨rfl, rfl⟩, fun k _ => rfl, hwfix, rfl, hw2⟩
  · exact ⟨this.2.2.1, this.2.2.2.2.1⟩
  · intro t a _ hP
    obtain ⟨hL, hPP, hCur, hWork, hPrev, hW2⟩ := hP
    have hnt : cfg.num_constraints ≤ t.cons.length := by rw [hL]; exact hn
    have hsafet : ∀ j, j < t.cons.length →
        ¬(cfg.is_fixed.getD (t.cons.getD j Constraint.default0).p0 false = true ∧
          cfg.is_fixed.getD (t.cons.getD j Constraint.default0).p1 false = true) := by
      intro j hj
      have hj2 : j < ctx.cons.length := by rw [← hL]; exact hj
      obtain ⟨e0, e1⟩ := hPP j hj2
      rw [e0, e1]
      exact hsafe j hj2
    obtain ⟨sL, sPP, sCur, sWork, sPrev, sW2⟩ :=
      solveIteration_fixed cfg a t hnt hsafet hW2 hWork
    refine ⟨sL.trans hL, ?_, ?_, sWork, sPrev.trans hPrev, sW2⟩
    · intro j hj
      have hjt : j < t.cons.length := by rw [hL]; exact hj
      obtain ⟨e0, e1⟩ := sPP j hjt
      obtain ⟨f0, f1⟩ := hPP j hj
      exact ⟨e0.trans f0, e1.trans f1⟩
    · intro k hk
      exact (sCur k hk).trans (hCur k hk)

theorem integStep_fixed (nu dt : ℚ) (isf : List Bool) (t : List V3 × List V3)
    (i k : ℕ) (hk : isf.getD k false = true)
    (heq : t.1.getD k 0 = t.2.getD k 0) :
    (integStep nu dt isf t i).1.getD k 0 = t.1.getD k 0 ∧
    (integStep nu dt isf t i).2.getD k 0 = t.2.getD k 0 := by
  by_cases hik : i = k
  · subst hik
    constructor
    · show (t.1.set i _).getD i 0 = t.1.getD i 0
      rw [show (if isf.getD i false then t.1.getD i 0
          else t.1.getD i 0 + (V3.smul nu (t.1.getD i 0 - t.2.getD i 0) +
            V3.smul dt gravityVec)) = t.1.getD i 0 from if_pos hk,
        List.set_getD_self]
    · show (t.2.set i (t.1.getD i 0)).getD i 0 = t.2.getD i 0
      rw [heq, List.set_getD_self]
  · exact ⟨List.getD_set_ne _ _ _ _ _ hik, List.getD_set_ne _ _ _ _ _ hik⟩

theorem integLoop_fixed (nu dt : ℚ) (isf : List Bool) (n : ℕ)
    (s : List V3 × List V3) (k : ℕ) (hk : isf.getD k false = true)
    (heq : s.1.getD k 0 = s.2.getD k 0) :
    (integLoop nu dt isf n s).1.getD k 0 = s.1.getD k 0 ∧
    (integLoop nu dt isf n s).2.getD k 0 = s.2.getD k 0 := by
  unfold integLoop
  refine foldl_inv
    (fun t => t.1.getD k 0 = s.1.getD k 0 ∧ t.2.getD k 0 = s.2.getD k 0)
    (integStep nu dt isf) (List.range n) s ?_ ⟨rfl, rfl⟩
  intro t a _ hP
  have heqt : t.1.getD k 0 = t.2.getD k 0 := by
    rw [hP.1, hP.2, heq]
  obtain ⟨h1, h2⟩ := integStep_fixed nu dt isf t a k hk heqt
  exact ⟨h1.trans hP.1, h2.trans hP.2⟩

@[simp] theorem V3.one_smul (v : V3) : V3.smul 1 v = v := by
  apply V3.ext_xyz <;> simp

theorem deltaLambdaOf_mode (sq : ℚ → ℚ) (isf : List Bool) (warm : Bool)
    (eta aT r1 r2 : ℚ) (a1 a2 b1 b2 : ℕ) (it : ℕ) (ctx : SolveCtx) (i : ℕ)
    (hw : warm = false ∨ eta = 0 ∨ (ctx.cons.getD i Constraint.default0).lambda = 0) :
    deltaLambdaOf ⟨isf, false, warm, eta, aT, r1, a1, b1, sq⟩ it ctx i =
      deltaLambdaOf ⟨isf, true, warm, eta, aT, r2, a2, b2, sq⟩ it ctx i := by
  simp only [deltaLambdaOf, Bool.false_eq_true, if_false, eq_self_iff_true, if_true]
  by_cases hitw : it = 0 ∧ warm = true
  · rw [if_pos hitw, if_pos hitw]
    rcases hw with hww | he | hl
    · rw [hww] at hitw
      exact absurd hitw.2 (by decide)
    · rw [he, mul_zero, V3.zero_smul]
    · rw [hl, V3.smul_zero, V3.smul_zero]
  · rw [if_neg hitw, if_neg hitw]

theorem solveConstraint_cur_gs_eq (cfg : SolveCfg) (it : ℕ) (ctx : SolveCtx)
    (i : ℕ) (hgs : cfg.do_jacobi = false) :
    (solveConstraint cfg it ctx i).cur =
      (ctx.cur.set (ctx.cons.getD i Constraint.default0).p0
        (ctx.cur.getD (ctx.cons.getD i Constraint.default0).p0 0 +
          V3.smul
            ((if cfg.is_fixed.getD (ctx.cons.getD i Constraint.default0).p0 false then (0:ℚ) else 1) /
             ((if cfg.is_fixed.getD (ctx.cons.getD i Constraint.default0).p0 false then (0:ℚ) else 1) +
              (if cfg.is_fixed.getD (ctx.cons.getD i Constraint.default0).p1 false then (0:ℚ) else 1)))
            (deltaLambdaOf cfg it ctx i))).set
        (ctx.cons.getD i Constraint.default0).p1
        (ctx.cur.getD (ctx.cons.getD i Constraint.default0).p1 0 +
          -(V3.smul
            ((if cfg.is_fixed.getD (ctx.cons.getD i Constraint.default0).p1 false then (0:ℚ) else 1) /
             ((if cfg.is_fixed.getD (ctx.cons.getD i Constraint.default0).p0 false then (0:ℚ) else 1) +
              (if cfg.is_fixed.getD (ctx.cons.getD i Constraint.default0).p1 false then (0:ℚ) else 1)))
            (deltaLambdaOf cfg it ctx i))) := by
  simp only [solveConstraint, hgs, Bool.false_eq_true, if_false]

theorem solveConstraint_work_jacobi_eq (cfg : SolveCfg) (it : ℕ) (ctx : SolveCtx)
    (i : ℕ) (hj : cfg.do_jacobi = true) :
    (solveConstraint cfg it ctx i).work =
      listAddAt
        (listAddAt ctx.work (ctx.cons.getD i Constraint.default0).p0
          (V3.smul
            ((if cfg.is_fixed.getD (ctx.cons.getD i Constraint.default0).p0 false then (0:ℚ) else 1) /
             ((if cfg.is_fixed.getD (ctx.cons.getD i Constraint.default0).p0 false then (0:ℚ) else 1) +
              (if cfg.is_fixed.getD (ctx.cons.getD i Constraint.default0).p1 false then (0:ℚ) else 1)))
            (deltaLambdaOf cfg it ctx i)))
        (ctx.cons.getD i Constraint.default0).p1
        (-(V3.smul
            ((if cfg.is_fixed.getD (ctx.cons.getD i Constraint.default0).p1 false then (0:ℚ) else 1) /
             ((if cfg.is_fixed.getD (ctx.cons.getD i Constraint.default0).p0 false then (0:ℚ) else 1) +
              (if cfg.is_fixed.getD (ctx.cons.getD i Constraint.default0).p1 false then (0:ℚ) else 1)))
            (deltaLambdaOf cfg it ctx i))) := by
  simp only [solveConstraint, hj, if_true]

theorem drainLoop_succ (relax : ℚ) (n : ℕ) (ctx : SolveCtx) :
    drainLoop relax (n + 1) ctx = drainStep relax (drainLoop relax n ctx) n := by
  unfold drainLoop
  rw [List.range_succ, List.foldl_append]
  rfl

theorem drainLoop_cur (relax : ℚ) :
    ∀ (n : ℕ) (ctx : SolveCtx), n ≤ ctx.cur.length →
      (drainLoop relax n ctx).cur.length = ctx.cur.length ∧
      (∀ k, n ≤ k →
        (drainLoop relax n ctx).cur.getD k 0 = ctx.cur.getD k 0 ∧
        (drainLoop relax n ctx).work.getD k 0 = ctx.work.getD k 0) ∧
      (∀ k, k < n →
        (drainLoop relax n ctx).cur.getD k 0 =
          ctx.cur.getD k 0 + V3.smul relax (ctx.work.getD k 0)) := by
  intro n
  induction n with
  | zero =>
    intro ctx _
    exact ⟨rfl, fun k _ => ⟨rfl, rfl⟩, fun k hk => absurd hk (Nat.not_lt_zero k)⟩
  | succ n ih =>
    intro ctx hn
    obtain ⟨ihL, ihGe, ihLt⟩ := ih ctx (Nat.le_of_succ_le hn)
    rw [drainLoop_succ]
    set D := drainLoop relax n ctx with hD
    have hcur : (drainStep relax D n).cur =
        D.cur.set n (D.cur.getD n 0 + V3.smul relax (D.work.getD n 0)) := rfl
    have hwork : (drainStep relax D n).work = D.work.set n 0 := rfl
    have hnD : n < D.cur.length := by
      rw [ihL]
      exact hn
    refine ⟨?_, ?_, ?_⟩
    · rw [hcur, List.length_set]
      exact ihL
    · intro k hk
      have hnk : n ≠ k := by omega
      rw [hcur, hwork, List.getD_set_ne _ _ _ _ _ hnk, List.getD_set_ne _ _ _ _ _ hnk]
      exact ihGe k (by omega)
    · intro k hk
      rcases Nat.lt_or_ge k n with hkn | hkn
      · have hnk : n ≠ k := by omega
        rw [hcur, List.getD_set_ne _ _ _ _ _ hnk]
        exact ihLt k hkn
      · have hkn2 : k = n := by omega
        subst hkn2
        obtain ⟨hgc, hgw⟩ := ihGe k (Nat.le_refl k)
        rw [hcur, List.getD_set_self _ _ _ _ hnD, hgc, hgw]

theorem listAddAt_getD_self (l : List V3) (i : ℕ) (v : V3) (h : i < l.length) :
    (listAddAt l i v).getD i 0 = l.getD i 0 + v := by
  rw [listAddAt, List.getD_set_self _ _ _ _ h]

theorem listAddAt_length (l : List V3) (i : ℕ) (v : V3) :
    (listAddAt l i v).length = l.length := by
  rw [listAddAt, List.length_set]

theorem List.getD_mem {α : Type} (l : List α) (j : ℕ) (d : α) (h : j < l.length) :
    l.getD j d ∈ l := by
  rw [List.getD_eq_getElem?_getD, List.getElem?_eq_getElem h]
  exact List.getElem_mem h

theorem grid_flatMap_getD {α : Type} (f : ℕ → ℕ → α) (d : α)
    (nx ny i j : ℕ) (hi : i < nx) (hj : j < ny) :
    (((List.range nx).flatMap fun a => (List.range ny).map (f a)).getD
      (i * ny + j) d) = f i j := by
  rw [flatMap_fixed_width_getD (fun a => (List.range ny).map (f a)) ny d
      (by intro k; simp) (List.range nx) i j (by simpa using hi) hj,
    List.getD_range nx i 0 hi, List.getD_map_range _ _ _ _ hj]

/-!
Claim theorems.
-/

/-- C10: the constraint solver phase never changes previous_positions. In
Gauss-Seidel mode corrections are written only to current_positions, and in
Jacobi mode the velocity workspace (workspace2) is never accumulated into,
so the per-iteration drain adds zero to every previous position: the
previous positions after the whole solver equal those left by the
integrator pass, for every state and configuration. -/
theorem C10_solver_never_touches_previous (sq : ℚ → ℚ) (m : Model) (ts : ℚ) :
    (simStep sq m ts).previous_positions =
      (integLoop m.nu m.target_dt m.is_fixed m.num_particles
        (m.current_positions, m.previous_positions)).2 := by
  simp only [simStep]
  exact iterLoop_prev _ _ _ (fun k => List.getD_replicate_self _ _ _)

/-- C4: for every simulation step, every particle marked fixed keeps its
current and previous position unchanged across the integrator pass and
across the whole step (integrator plus all solver iterations, in either
mode), under the reset-established invariants that fixed particles have
current equal to previous and that no constraint joins two fixed
particles. -/
theorem C4_fixed_particle_invariant (sq : ℚ → ℚ) (m : Model) (ts : ℚ)
    (hcp : ∀ k, m.is_fixed.getD k false = true →
      m.current_positions.getD k 0 = m.previous_positions.getD k 0)
    (hsafe : ∀ c ∈ m.constraints,
      ¬(m.is_fixed.getD c.p0 false = true ∧ m.is_fixed.getD c.p1 false = true))
    (hnc : m.num_constraints ≤ m.constraints.length) :
    ∀ k, m.is_fixed.getD k false = true →
      ((integLoop m.nu m.target_dt m.is_fixed m.num_particles
          (m.current_positions, m.previous_positions)).1.getD k 0 =
            m.current_positions.getD k 0 ∧
        (integLoop m.nu m.target_dt m.is_fixed m.num_particles
          (m.current_positions, m.previous_positions)).2.getD k 0 =
            m.previous_positions.getD k 0) ∧
      ((simStep sq m ts).current_positions.getD k 0 =
          m.current_positions.getD k 0 ∧
        (simStep sq m ts).previous_positions.getD k 0 =
          m.previous_positions.getD k 0) := by
  intro k hk
  obtain ⟨hi1, hi2⟩ := integLoop_fixed m.nu m.target_dt m.is_fixed
    m.num_particles (m.current_positions, m.previous_positions) k hk (hcp k hk)
  refine ⟨⟨hi1, hi2⟩, ?_⟩
  simp only [simStep]
  obtain ⟨hc, hp⟩ := iterLoop_fixed
    ⟨m.is_fixed, m.do_jacobi, m.warm_start, m.eta,
      1 / (m.stiffness * m.target_dt * m.target_dt), m.jacobi_relaxation,
      m.num_particles, m.num_constraints, sq⟩
    m.num_iterations.toNat
    ⟨(integLoop m.nu m.target_dt m.is_fixed m.num_particles
        (m.current_positions, m.previous_positions)).1,
      (integLoop m.nu m.target_dt m.is_fixed m.num_particles
        (m.current_positions, m.previous_positions)).2,
      m.constraints, List.replicate m.num_particles 0,
      List.replicate m.num_particles 0⟩
    hnc
    (fun j hj => hsafe _ (List.getD_mem _ j _ hj))
    (fun j => List.getD_replicate_self _ _ _)
    (fun j _ => List.getD_replicate_self _ _ _)
  constructor
  · rw [hc k hk]
    exact hi1
  · rw [hp]
    exact hi2

/-- Witness for C4 at a concrete two-particle model: the hypotheses hold and
the fixed particle's current position is unchanged by the step. -/
theorem C4_fixed_particle_invariant_witness :
    (∀ k, modelW1.is_fixed.getD k false = true →
      modelW1.current_positions.getD k 0 = modelW1.previous_positions.getD k 0) ∧
    (∀ c ∈ modelW1.constraints,
      ¬(modelW1.is_fixed.getD c.p0 false = true ∧
        modelW1.is_fixed.getD c.p1 false = true)) ∧
    modelW1.num_constraints ≤ modelW1.constraints.length ∧
    ((simStep sqTest modelW1 1).current_positions.getD 0 0 =
        modelW1.current_positions.getD 0 0 ∧
      (simStep sqTest modelW1 1).previous_positions.getD 0 0 =
        modelW1.previous_positions.getD 0 0) := by
  have hcp : ∀ k, modelW1.is_fixed.getD k false = true →
      modelW1.current_positions.getD k 0 = modelW1.previous_positions.getD k 0 := by
    intro k hk
    match k with
    | 0 => decide
    | 1 => exact absurd hk (by decide)
    | (n + 2) =>
      rw [List.getD_eq_default _ _ (by simp [modelW1] : modelW1.is_fixed.length ≤ n + 2)] at hk
      exact absurd hk (by decide)
  refine ⟨hcp, by decide, by decide, ?_⟩
  exact (C4_fixed_particle_invariant sqTest modelW1 1 hcp (by decide) (by decide)
    0 (by decide)).2

/-- C1: for every constraint and every solver iteration, the lambda stored
after processing the constraint equals the carried lambda (zero at iteration
0) plus deltaLambda = -(residual * normal + aTilde * (iteration == 0 ? 0 :
lambda)) / (total_inv_mass + aTilde), plus — only at iteration 0 with warm
start enabled — the previous-frame lambda scaled by the effective eta, which
is eta in Jacobi mode and 0.7 * eta in Gauss-Seidel mode. This captures that
the warm-start injection is added to deltaLambda, lambda is reset to zero at
iteration 0, and deltaLambda is then accumulated. -/
theorem C1_deltaLambda_formula (cfg : SolveCfg) (iteration : ℕ) (ctx : SolveCtx)
    (i : ℕ) (hi : i < ctx.cons.length) :
    ((solveConstraint cfg iteration ctx i).cons.getD i Constraint.default0).lambda =
      (let c := ctx.cons.getD i Constraint.default0
       let p0 := ctx.cur.getD c.p0 0
       let p1 := ctx.cur.getD c.p1 0
       let len := cfg.sq (V3.dot (p0 - p1) (p0 - p1))
       let normal := V3.sdiv (p0 - p1) len
       let residual := len - c.length
       let totalInvMass := (if cfg.is_fixed.getD c.p0 false then (0:ℚ) else 1) +
         (if cfg.is_fixed.getD c.p1 false then (0:ℚ) else 1)
       let deltaLambda := V3.sdiv
         (-(V3.smul residual normal +
             V3.smul cfg.aTilde (if iteration = 0 then 0 else c.lambda)))
         (totalInvMass + cfg.aTilde)
       let effectiveEta := if cfg.do_jacobi then cfg.eta else (7 / 10) * cfg.eta
       (if iteration = 0 then 0 else c.lambda) + deltaLambda +
         (if iteration = 0 ∧ cfg.warm_start then V3.smul effectiveEta c.lambda
          else 0)) := by
  by_cases hj : cfg.do_jacobi
  · simp only [solveConstraint, deltaLambdaOf, hj, if_true]
    rw [List.getD_set_self _ _ _ _ hi]
    by_cases hw : iteration = 0 ∧ cfg.warm_start
    · rw [if_pos hw, if_pos hw]
      exact (V3.add_assoc _ _ _).symm
    · rw [if_neg hw, if_neg hw, V3.add_zero]
  · simp only [solveConstraint, deltaLambdaOf, hj, Bool.false_eq_true, if_false]
    rw [List.getD_set_self _ _ _ _ hi]
    by_cases hw : iteration = 0 ∧ cfg.warm_start
    · rw [if_pos hw, if_pos hw]
      exact (V3.add_assoc _ _ _).symm
    · rw [if_neg hw, if_neg hw, V3.add_zero]

/-- Witness for C1 at iteration 0 with warm start enabled in Gauss-Seidel
mode, on a concrete one-constraint state. -/
theorem C1_deltaLambda_formula_witness :
    0 < ctxC1.cons.length ∧
    ((solveConstraint cfgC1 0 ctxC1 0).cons.getD 0 Constraint.default0).lambda =
      (let c := ctxC1.cons.getD 0 Constraint.default0
       let p0 := ctxC1.cur.getD c.p0 0
       let p1 := ctxC1.cur.getD c.p1 0
       let len := cfgC1.sq (V3.dot (p0 - p1) (p0 - p1))
       let normal := V3.sdiv (p0 - p1) len
       let residual := len - c.length
       let totalInvMass := (if cfgC1.is_fixed.getD c.p0 false then (0:ℚ) else 1) +
         (if cfgC1.is_fixed.getD c.p1 false then (0:ℚ) else 1)
       let deltaLambda := V3.sdiv
         (-(V3.smul residual normal +
             V3.smul cfgC1.aTilde (if (0:ℕ) = 0 then 0 else c.lambda)))
         (totalInvMass + cfgC1.aTilde)
       let effectiveEta := if cfgC1.do_jacobi then cfgC1.eta else (7 / 10) * cfgC1.eta
       (if (0:ℕ) = 0 then 0 else c.lambda) + deltaLambda +
         (if (0:ℕ) = 0 ∧ cfgC1.warm_start then V3.smul effectiveEta c.lambda
          else 0)) :=
  ⟨by decide, C1_deltaLambda_formula cfgC1 0 ctxC1 0 (by decide)⟩

/-- C2 (code divergence): with coincident endpoints (len = 0) the solver
body performs normal = (p0-p1)/len unconditionally — there is no guard and
no assertion — and the division by zero silently produces non-finite (NaN)
components that propagate into both endpoint positions and the stored
lambda. The identity square-root stand-in is exact here since the squared
distance is 0. -/
theorem C2_len_zero_silent_division :
    ((solveConstraintPointF (fun q => q) [false, false] false false
        (Option.some 0) (Option.some 1) 0 curC2 conC2).1.getD 0 V3F.zero =
      ⟨Option.none, Option.none, Option.none⟩) ∧
    ((solveConstraintPointF (fun q => q) [false, false] false false
        (Option.some 0) (Option.some 1) 0 curC2 conC2).1.getD 1 V3F.zero =
      ⟨Option.none, Option.none, Option.none⟩) ∧
    ((solveConstraintPointF (fun q => q) [false, false] false false
        (Option.some 0) (Option.some 1) 0 curC2 conC2).2.lambda =
      ⟨Option.none, Option.none, Option.none⟩) := by
  norm_num [solveConstraintPointF, curC2, conC2, V3F.zero, V3F.add, V3F.sub,
    V3F.neg, V3F.smul, V3F.sdiv, V3F.dot, FQ.add, FQ.sub, FQ.mul, FQ.neg,
    FQ.div]

/-- C3 (code divergence): a constraint with both endpoints fixed
(total_inv_mass = 0) is not skipped: the solver body computes
p0RelMass = 0/0 (non-finite) and writes non-finite (NaN) corrections into
the positions of both fixed endpoints. The identity square-root stand-in is
exact here since the squared distance is 1. -/
theorem C3_both_fixed_not_skipped :
    ((solveConstraintPointF (fun q => q) [true, true] false false
        (Option.some 0) (Option.some 1) 0 curC3 conC3).1.getD 0 V3F.zero =
      ⟨Option.none, Option.none, Option.none⟩) ∧
    ((solveConstraintPointF (fun q => q) [true, true] false false
        (Option.some 0) (Option.some 1) 0 curC3 conC3).1.getD 1 V3F.zero =
      ⟨Option.none, Option.none, Option.none⟩) := by
  norm_num [solveConstraintPointF, curC3, conC3, V3F.zero, V3F.add, V3F.sub,
    V3F.neg, V3F.smul, V3F.sdiv, V3F.dot, FQ.add, FQ.sub, FQ.mul, FQ.neg,
    FQ.div]

/-- C9 (amended): for a system with exactly one constraint and identical
starting state, one Gauss-Seidel iteration and one Jacobi iteration with
jacobi_relaxation = 1 produce identical particle positions, provided the
warm start injects nothing (warm start disabled, or eta = 0, or the stored
lambda zero, as the application forces after every mode switch); the claim
fails as stated because the effective eta differs between the modes. -/
theorem C9_single_constraint_mode_equivalence
    (sq : ℚ → ℚ) (isf : List Bool) (warm : Bool) (eta aT : ℚ) (n : ℕ)
    (c : Constraint) (cur prev : List V3) (it : ℕ)
    (hpp : c.p0 ≠ c.p1) (hp0 : c.p0 < n) (hp1 : c.p1 < n)
    (hlen : cur.length = n)
    (hw : warm = false ∨ eta = 0 ∨ c.lambda = 0) :
    (solveIteration ⟨isf, false, warm, eta, aT, 1, n, 1, sq⟩ it
      ⟨cur, prev, [c], List.replicate n 0, List.replicate n 0⟩).cur =
    (solveIteration ⟨isf, true, warm, eta, aT, 1, n, 1, sq⟩ it
      ⟨cur, prev, [c], List.replicate n 0, List.replicate n 0⟩).cur := by
  have hGS : (solveIteration ⟨isf, false, warm, eta, aT, 1, n, 1, sq⟩ it
      ⟨cur, prev, [c], List.replicate n 0, List.replicate n 0⟩).cur =
      (solveConstraint ⟨isf, false, warm, eta, aT, 1, n, 1, sq⟩ it
        ⟨cur, prev, [c], List.replicate n 0, List.replicate n 0⟩ 0).cur := rfl
  have hJ : (solveIteration ⟨isf, true, warm, eta, aT, 1, n, 1, sq⟩ it
      ⟨cur, prev, [c], List.replicate n 0, List.replicate n 0⟩).cur =
      (drainLoop 1 n (solveConstraint ⟨isf, true, warm, eta, aT, 1, n, 1, sq⟩ it
        ⟨cur, prev, [c], List.replicate n 0, List.replicate n 0⟩ 0)).cur := rfl
  rw [hGS, hJ]
  have hJcur : (solveConstraint ⟨isf, true, warm, eta, aT, 1, n, 1, sq⟩ it
      ⟨cur, prev, [c], List.replicate n 0, List.replicate n 0⟩ 0).cur = cur :=
    solveConstraint_cur_jacobi _ _ _ _ rfl
  have hJlen : n ≤ (solveConstraint ⟨isf, true, warm, eta, aT, 1, n, 1, sq⟩ it
      ⟨cur, prev, [c], List.replicate n 0, List.replicate n 0⟩ 0).cur.length := by
    rw [hJcur, hlen]
  obtain ⟨hDL, hDGe, hDLt⟩ := drainLoop_cur 1 n _ hJlen
  have hJwork := solveConstraint_work_jacobi_eq
    ⟨isf, true, warm, eta, aT, 1, n, 1, sq⟩ it
    ⟨cur, prev, [c], List.replicate n 0, List.replicate n 0⟩ 0 rfl
  have hGSeq := solveConstraint_cur_gs_eq
    ⟨isf, false, warm, eta, aT, 1, n, 1, sq⟩ it
    ⟨cur, prev, [c], List.replicate n 0, List.replicate n 0⟩ 0 rfl
  have hdl : deltaLambdaOf ⟨isf, false, warm, eta, aT, 1, n, 1, sq⟩ it
      ⟨cur, prev, [c], List.replicate n 0, List.replicate n 0⟩ 0 =
      deltaLambdaOf ⟨isf, true, warm, eta, aT, 1, n, 1, sq⟩ it
        ⟨cur, prev, [c], List.replicate n 0, List.replicate n 0⟩ 0 :=
    deltaLambdaOf_mode sq isf warm eta aT 1 1 n n 1 1 it
      ⟨cur, prev, [c], List.replicate n 0, List.replicate n 0⟩ 0 hw
  rw [← hdl] at hJwork
  simp only [show (⟨cur, prev, [c], List.replicate n 0, List.replicate n 0⟩ :
      SolveCtx).cur = cur from rfl,
    show (⟨cur, prev, [c], List.replicate n 0, List.replicate n 0⟩ :
      SolveCtx).work = List.replicate n 0 from rfl,
    show ((⟨cur, prev, [c], List.replicate n 0, List.replicate n 0⟩ :
      SolveCtx).cons.getD 0 Constraint.default0) = c from rfl,
    show (⟨isf, false, warm, eta, aT, 1, n, 1, sq⟩ : SolveCfg).is_fixed = isf from rfl,
    show (⟨isf, true, warm, eta, aT, 1, n, 1, sq⟩ : SolveCfg).is_fixed = isf from rfl]
    at hGSeq hJwork
  rw [hGSeq]
  refine List.ext_getD _ _ 0 ?_ ?_
  · rw [List.length_set, List.length_set, hDL, hJcur, hlen]
  · intro k hk
    rw [List.length_set, List.length_set] at hk
    have hkn : k < n := by rw [← hlen]; exact hk
    rw [hDLt k hkn, hJcur, hJwork]
    by_cases hk1 : c.p1 = k
    · subst hk1
      rw [List.getD_set_self _ _ _ _ (by rw [List.length_set]; exact hk),
        listAddAt_getD_self _ _ _
          (by rw [listAddAt_length, List.length_replicate]; exact hp1),
        listAddAt_getD_ne _ _ _ _ (fun he => hpp (he.trans rfl)),
        List.getD_replicate_self, V3.zero_add, V3.one_smul]
    · by_cases hk0 : c.p0 = k
      · subst hk0
        rw [List.getD_set_ne _ _ _ _ _ hk1,
          List.getD_set_self _ _ _ _ hk,
          listAddAt_getD_ne _ _ _ _ hk1,
          listAddAt_getD_self _ _ _ (by rw [List.length_replicate]; exact hp0),
          List.getD_replicate_self, V3.zero_add, V3.one_smul]
      · rw [List.getD_set_ne _ _ _ _ _ hk1, List.getD_set_ne _ _ _ _ _ hk0,
          listAddAt_getD_ne _ _ _ _ hk1, listAddAt_getD_ne _ _ _ _ hk0,
          List.getD_replicate_self, V3.smul_zero, V3.add_zero]

/-- Witness for the amended C9 on a concrete single-constraint state with a
zero stored lambda: both modes give the same positions. -/
theorem C9_single_constraint_mode_equivalence_witness :
    ((0 : ℕ) ≠ 1 ∧ 0 < 2 ∧ 1 < 2 ∧
      ([⟨2, 0, 0⟩, ⟨0, 0, 0⟩] : List V3).length = 2) ∧
    (solveIteration ⟨[false, false], false, true, 1, 1, 1, 2, 1, sqTest⟩ 0
      ⟨[⟨2, 0, 0⟩, ⟨0, 0, 0⟩], [⟨2, 0, 0⟩, ⟨0, 0, 0⟩], [⟨0, 1, 1, 0⟩],
        List.replicate 2 0, List.replicate 2 0⟩).cur =
    (solveIteration ⟨[false, false], true, true, 1, 1, 1, 2, 1, sqTest⟩ 0
      ⟨[⟨2, 0, 0⟩, ⟨0, 0, 0⟩], [⟨2, 0, 0⟩, ⟨0, 0, 0⟩], [⟨0, 1, 1, 0⟩],
        List.replicate 2 0, List.replicate 2 0⟩).cur :=
  ⟨⟨by decide, by decide, by decide, by decide⟩,
    C9_single_constraint_mode_equivalence sqTest [false, false] true 1 1 2
      ⟨0, 1, 1, 0⟩ [⟨2, 0, 0⟩, ⟨0, 0, 0⟩] [⟨2, 0, 0⟩, ⟨0, 0, 0⟩] 0
      (by decide) (by decide) (by decide) (by decide) (Or.inr (Or.inr rfl))⟩

/-- Counterexample to C9 as stated: with warm start enabled, eta 1 and a
nonzero stored lambda, one Gauss-Seidel iteration and one Jacobi iteration
with relaxation 1 disagree on the resulting positions, because the warm
start injects 0.7 * eta * lambda in Gauss-Seidel mode but eta * lambda in
Jacobi mode. -/
theorem C9_mode_counterexample :
    (solveIteration cfgC9GS 0 ctxC9).cur ≠ (solveIteration cfgC9J 0 ctxC9).cur := by
  have hGS : ((solveIteration cfgC9GS 0 ctxC9).cur.getD 0 0).x = 131 / 60 := by
    norm_num [solveIteration, consLoop, drainLoop, solveConstraint, deltaLambdaOf,
      cfgC9GS, ctxC9, sqTest, listAddAt, drainStep, V3.smul, V3.sdiv, V3.dot,
      List.range_succ]
  have hJ : ((solveIteration cfgC9J 0 ctxC9).cur.getD 0 0).x = 7 / 3 := by
    norm_num [solveIteration, consLoop, drainLoop, solveConstraint, deltaLambdaOf,
      cfgC9J, ctxC9, sqTest, listAddAt, drainStep, V3.smul, V3.sdiv, V3.dot,
      List.range_succ]
  intro h
  rw [h] at hGS
  exact absurd (hGS.symm.trans hJ) (by norm_num)

/-- C5 (amended): on an external tick with no pending reset and no pending
lambda-clear: if delta = (t - last_timestamp)/1000 is at least target_dt
the tick runs exactly one simulation step — simStep, that is one integrator
pass followed by num_iterations solver iterations — and sets last_timestamp
to t; if delta is below target_dt the tick leaves the whole model (positions,
previous positions, lambdas and last_timestamp) unchanged. The claim as
stated fails on ticks with a pending reset or pending lambda-clear. -/
theorem C5_step_gate (sq : ℚ → ℚ) (m : Model) (t : ℚ)
    (hr : m.do_reset = false) (hc : m.do_clean_lambda = false) :
    (m.target_dt ≤ (t - m.prev_timestamp) / 1000 →
      renderTick sq m t = simStep sq m t ∧
      (renderTick sq m t).prev_timestamp = t) ∧
    (¬ m.target_dt ≤ (t - m.prev_timestamp) / 1000 →
      renderTick sq m t = m) := by
  constructor
  · intro h
    have he : renderTick sq m t = simStep sq m t := by
      simp [renderTick, hr, hc, h]
    exact ⟨he, by rw [he]; rfl⟩
  · intro h
    simp [renderTick, hr, hc, h]

/-- Witness for the amended C5: a tick far past the deadline on a model with
no pending flags runs the step. -/
theorem C5_step_gate_witness :
    (modelW1.do_reset = false ∧ modelW1.do_clean_lambda = false ∧
      modelW1.target_dt ≤ (5000 - modelW1.prev_timestamp) / 1000) ∧
    renderTick sqTest modelW1 5000 = simStep sqTest modelW1 5000 :=
  ⟨⟨rfl, rfl, by norm_num [modelW1]⟩,
    ((C5_step_gate sqTest modelW1 5000 rfl rfl).1 (by norm_num [modelW1])).1⟩

/-- Counterexample to C5 as stated: on a tick with delta below target_dt but
a pending lambda-clear, the constraint lambdas change (they are zeroed), so
the claim that lambdas are unchanged whenever delta < target_dt is false. -/
theorem C5_pending_clear_counterexample :
    ((1 - modelC5.prev_timestamp) / 1000 < modelC5.target_dt) ∧
    (renderTick sqTest modelC5 1).constraints ≠ modelC5.constraints := by
  constructor
  · norm_num [modelC5, initialModel]
  · have hev : (renderTick sqTest modelC5 1).constraints = [⟨0, 1, 1, 0⟩] := by
      norm_num [renderTick, modelC5, initialModel, cleanLambdaLoop,
        List.range_succ]
    rw [hev]
    decide

/-- C8 (code divergence): the iteration-count handler calls parse().unwrap(),
so non-numeric input panics (no resulting state, modeled as Option.none)
instead of retaining the previous value, and the eta handler stores any
successfully parsed float without a range check, so out-of-range values such
as 5 or -3 are accepted into the solver configuration. -/
theorem C8_input_validation_gaps :
    numIterationsChanged Option.none initialModel = Option.none ∧
    (etaChanged (Option.some 5) initialModel).eta = 5 ∧
    (etaChanged (Option.some (-3)) initialModel).eta = -3 :=
  ⟨rfl, rfl, rfl⟩

/-- C6: every reset builds the constraint list exactly in the spec order —
verticals column by column, then horizontals, then the two diagonals per
cell in source order (proved as equality with the order written from the
spec wording); each rest length is the (square-root abstracted) Euclidean
distance of the endpoints at build time; and two resets with identical grid
dimensions produce identical particle positions, fixed masks and constraint
lists. -/
theorem C6_topology_build (sq : ℚ → ℚ) (nx ny : ℕ) (pos : List V3) :
    resetConstraints sq nx ny pos = specConstraintOrder sq nx ny pos ∧
    (∀ c ∈ resetConstraints sq nx ny pos,
      c.length = sq (V3.dot (pos.getD c.p0 0 - pos.getD c.p1 0)
        (pos.getD c.p0 0 - pos.getD c.p1 0))) ∧
    (∀ (m₁ m₂ : Model) (t₁ t₂ : ℚ),
      m₁.num_particles_x = m₂.num_particles_x →
      m₁.num_particles_y = m₂.num_particles_y →
      (applyReset sq m₁ t₁).current_positions =
        (applyReset sq m₂ t₂).current_positions ∧
      (applyReset sq m₁ t₁).is_fixed = (applyReset sq m₂ t₂).is_fixed ∧
      (applyReset sq m₁ t₁).constraints = (applyReset sq m₂ t₂).constraints) := by
  refine ⟨rfl, ?_, ?_⟩
  · intro c hc
    simp only [resetConstraints, verticalConstraints, horizontalConstraints,
      diagonalConstraints, List.mem_append, List.mem_flatMap, List.mem_map,
      List.mem_range, List.mem_cons, List.mem_singleton, List.not_mem_nil,
      or_false] at hc
    rcases hc with ((⟨i, hi, j, hj, rfl⟩ | ⟨i, hi, j, hj, rfl⟩) |
      ⟨i, hi, j, hj, rfl | rfl⟩) <;> rfl
  · intro m₁ m₂ t₁ t₂ hx hy
    refine ⟨?_, ?_, ?_⟩
    · show gridPositions m₁.num_particles_x m₁.num_particles_y =
        gridPositions m₂.num_particles_x m₂.num_particles_y
      rw [hx, hy]
    · show gridFixed m₁.num_particles_x m₁.num_particles_y =
        gridFixed m₂.num_particles_x m₂.num_particles_y
      rw [hx, hy]
    · show resetConstraints sq m₁.num_particles_x m₁.num_particles_y
          (gridPositions m₁.num_particles_x m₁.num_particles_y) =
        resetConstraints sq m₂.num_particles_x m₂.num_particles_y
          (gridPositions m₂.num_particles_x m₂.num_particles_y)
      rw [hx, hy]

/-- Witness for C6: the first vertical constraint of a 2 x 2 reset is in the
built list with the correct rest length, and two resets of models with the
same dimensions agree on the constraint list. -/
theorem C6_topology_build_witness :
    (Constraint.new sqTest 0 1 (gridPositions 2 2) ∈
      resetConstraints sqTest 2 2 (gridPositions 2 2)) ∧
    (Constraint.new sqTest 0 1 (gridPositions 2 2)).length =
      sqTest (V3.dot
        ((gridPositions 2 2).getD 0 0 - (gridPositions 2 2).getD 1 0)
        ((gridPositions 2 2).getD 0 0 - (gridPositions 2 2).getD 1 0)) ∧
    modelW1.num_particles_x = modelW1.num_particles_x ∧
    (applyReset sqTest modelW1 0).constraints =
      (applyReset sqTest modelW1 5).constraints := by
  have hmem : Constraint.new sqTest 0 1 (gridPositions 2 2) ∈
      resetConstraints sqTest 2 2 (gridPositions 2 2) := by
    simp only [resetConstraints, verticalConstraints, List.mem_append,
      List.mem_flatMap, List.mem_map, List.mem_range]
    exact Or.inl (Or.inl ⟨0, by decide, 0, by decide, rfl⟩)
  refine ⟨hmem, (C6_topology_build sqTest 2 2 (gridPositions 2 2)).2.1 _ hmem,
    rfl,
    ((C6_topology_build sqTest 2 2 (gridPositions 2 2)).2.2 modelW1 modelW1
      0 5 rfl rfl).2.2⟩

/-- C7: for grid dimensions at least 2, reset lays the particles on the unit
square (x and y coordinates within [-1/2, 1/2], y being the mirrored row
coordinate), marks exactly the two top-row end particles (grid points (0,0)
and (nx-1,0)) as fixed, and makes every previous position equal to the
current position. -/
theorem C7_grid_construction (nx ny : ℕ) (hx : 2 ≤ nx) (hy : 2 ≤ ny) :
    (∀ p ∈ gridPositions nx ny,
      -(1/2) ≤ p.x ∧ p.x ≤ 1/2 ∧ -(1/2) ≤ p.y ∧ p.y ≤ 1/2) ∧
    (∀ i j, i < nx → j < ny →
      ((gridFixed nx ny).getD (i * ny + j) false = true ↔
        (j = 0 ∧ (i = 0 ∨ i = nx - 1)))) ∧
    (∀ (sq : ℚ → ℚ) (m : Model) (t : ℚ),
      (applyReset sq m t).previous_positions =
        (applyReset sq m t).current_positions) := by
  refine ⟨?_, ?_, fun sq m t => rfl⟩
  · intro p hp
    have hp2 : p ∈ (List.range nx).flatMap (fun (i : ℕ) =>
        (List.range ny).map fun (j : ℕ) =>
          (⟨(i:ℚ)/(nx:ℚ) - 1/2, -((j:ℚ)/(ny:ℚ) - 1/2),
            ((i:ℚ)/(nx:ℚ) - 1/2) * (1/100)⟩ : V3)) := hp
    obtain ⟨i, hiR, hpi⟩ := List.mem_flatMap.mp hp2
    obtain ⟨j, hjR, rfl⟩ := List.mem_map.mp hpi
    have hi : i < nx := List.mem_range.mp hiR
    have hj : j < ny := List.mem_range.mp hjR
    have hnx : (0:ℚ) < (nx:ℚ) := by
      have h0 : 0 < nx := by omega
      exact_mod_cast h0
    have hny : (0:ℚ) < (ny:ℚ) := by
      have h0 : 0 < ny := by omega
      exact_mod_cast h0
    have hxnn : (0:ℚ) ≤ (i:ℚ) / (nx:ℚ) := by positivity
    have hxle : (i:ℚ) / (nx:ℚ) ≤ 1 := by
      rw [div_le_one hnx]
      exact_mod_cast Nat.le_of_lt hi
    have hynn : (0:ℚ) ≤ (j:ℚ) / (ny:ℚ) := by positivity
    have hyle : (j:ℚ) / (ny:ℚ) ≤ 1 := by
      rw [div_le_one hny]
      exact_mod_cast Nat.le_of_lt hj
    refine ⟨?_, ?_, ?_, ?_⟩
    · show -(1/2 : ℚ) ≤ (i:ℚ)/(nx:ℚ) - 1/2
      linarith
    · show (i:ℚ)/(nx:ℚ) - 1/2 ≤ 1/2
      linarith
    · show -(1/2 : ℚ) ≤ -((j:ℚ)/(ny:ℚ) - 1/2)
      linarith
    · show -((j:ℚ)/(ny:ℚ) - 1/2) ≤ 1/2
      linarith
  · intro i j hi hj
    have h := grid_flatMap_getD
      (fun a b => (b == 0 && (a == 0 || a == nx - 1))) false nx ny i j hi hj
    have h2 : (gridFixed nx ny).getD (i * ny + j) false =
        (j == 0 && (i == 0 || i == nx - 1)) := h
    rw [h2]
    simp [Bool.and_eq_true, Bool.or_eq_true, beq_iff_eq]

/-- Witness for C7 on the 2 x 2 grid: grid point (1,0) is the second anchor. -/
theorem C7_grid_construction_witness :
    2 ≤ 2 ∧
    ((gridFixed 2 2).getD (1 * 2 + 0) false = true ↔
      ((0:ℕ) = 0 ∧ ((1:ℕ) = 0 ∨ (1:ℕ) = 2 - 1))) :=
  ⟨le_refl 2,
    (C7_grid_construction 2 2 (le_refl 2) (le_refl 2)).2.1 1 0 (by decide)
      (by decide)⟩
